import Mathlib

/-!
Verification development for the CSV reconciliation engine of the
acuity/airtable repository (src/csv_logger.py and src/acuity_airtable_sdk.py).

The Python code is shallowly embedded: Python dicts become key-unique
association lists (insertion-ordered, like Python dicts), CSV files become a
header plus a list of rows (each row an association list whose keys are the
header, which is exactly what csv.DictReader / DictWriter round-trip), and the
file system directory of per-category CSV files becomes an association list
from filename to file.  Python string primitives (strip, lower, split,
substring test, code-point comparison) are re-implemented over List Char so
that everything reduces in the kernel; the deltas to Python (ASCII-only case
folding, the four ASCII whitespace characters instead of Python's full
whitespace class) are irrelevant to the inputs appearing in the claims.
-/

namespace AirtableCsv

/-! ### Python string primitives -/

/-- Code-point comparison of single characters, as Python compares strings. -/
def charLt (a b : Char) : Bool := decide (a.toNat < b.toNat)

/-- Lexicographic code-point comparison of character lists
(Python string less-or-equal). -/
def charListLe : List Char → List Char → Bool
  | [], _ => true
  | _ :: _, [] => false
  | a :: as, b :: bs => if a = b then charListLe as bs else charLt a b

/-- Python string comparison s1 less-or-equal s2 (lexicographic on code points). -/
def strLe (s t : String) : Bool := charListLe s.data t.data

/-- Whitespace class used for Python str.strip / regex whitespace
(space, tab, carriage return, newline). -/
def isWs (c : Char) : Bool := c.isWhitespace

/-- Python str.strip with no arguments: drop leading and trailing whitespace. -/
def pyStrip (s : String) : String :=
  String.mk (((s.data.dropWhile isWs).reverse.dropWhile isWs).reverse)

/-- ASCII lower-casing of one character (Python str.lower on ASCII input). -/
def lowerChar (c : Char) : Char :=
  if c.isUpper then Char.ofNat (c.toNat + 32) else c

/-- Python str.lower (ASCII). -/
def pyLower (s : String) : String := String.mk (s.data.map lowerChar)

/-- Character-list prefix test. -/
def listIsPfx : List Char → List Char → Bool
  | [], _ => true
  | _ :: _, [] => false
  | a :: as, b :: bs => a = b && listIsPfx as bs

/-- Substring occurrence test on character lists. -/
def listHasSub (p : List Char) : List Char → Bool
  | [] => listIsPfx p []
  | c :: t => listIsPfx p (c :: t) || listHasSub p t

/-- Python membership test: pat in s. -/
def strHas (s pat : String) : Bool := listHasSub pat.data s.data

/-- Python s.startswith(pat) / an anchored regex literal match. -/
def strStarts (s pat : String) : Bool := listIsPfx pat.data s.data

/-- Python s.endswith(pat). -/
def strEnds (s pat : String) : Bool := listIsPfx pat.data.reverse s.data.reverse

/-- Helper for splitting on a single separator character. -/
def splitCharAux (c : Char) : List Char → List Char → List (List Char)
  | [], acc => [acc.reverse]
  | x :: t, acc =>
    if x = c then acc.reverse :: splitCharAux c t []
    else splitCharAux c t (x :: acc)

/-- Python s.split(sep) for a one-character separator sep. -/
def pySplitChar (s : String) (c : Char) : List String :=
  (splitCharAux c s.data []).map String.mk

/-- Helper for Python whitespace split. -/
def wsSplitAux : List Char → List Char → List (List Char)
  | [], acc => if acc.isEmpty then [] else [acc.reverse]
  | c :: t, acc =>
    if isWs c then
      if acc.isEmpty then wsSplitAux t [] else acc.reverse :: wsSplitAux t []
    else wsSplitAux t (c :: acc)

/-- Python s.split() with no arguments: split on whitespace runs,
dropping empty words. -/
def pyWords (s : String) : List String := (wsSplitAux s.data []).map String.mk

/-- Python sep.join(parts). -/
def pyJoin (sep : String) : List String → String
  | [] => ""
  | [s] => s
  | s :: t => s ++ sep ++ pyJoin sep t

/-! ### Python dicts as insertion-ordered, key-unique association lists -/

/-- Python d.get(k, default-none): first binding of the key, if any. -/
def alistGet? {α : Type} (l : List (String × α)) (k : String) : Option α :=
  (l.find? (fun p => p.1 == k)).map (fun p => p.2)

/-- Python row.get(k, d) for string-valued dicts. -/
def alistGetD (l : List (String × String)) (k d : String) : String :=
  (alistGet? l k).getD d

/-- Python k in d. -/
def alistHas {α : Type} (l : List (String × α)) (k : String) : Bool :=
  l.any (fun p => p.1 == k)

/-- Python d[k] = v: overwrite in place if the key exists (keys are unique in
a dict, so mapping over all bindings is the same), else append, preserving
insertion order as Python dicts do. -/
def alistUpsert {α : Type} (l : List (String × α)) (k : String) (v : α) :
    List (String × α) :=
  if alistHas l k then l.map (fun p => if p.1 == k then (k, v) else p)
  else l ++ [(k, v)]

/-- Python enumerate(l) starting at a given index. -/
def enumFromN {α : Type} : Nat → List α → List (Nat × α)
  | _, [] => []
  | i, x :: t => (i, x) :: enumFromN (i + 1) t

/-! ### Stable sorting (Python sorted is a stable sort) -/

/-- Insert an element in front of the first list element it is
less-or-equal to. -/
def insertLE {α : Type} (le : α → α → Bool) (x : α) : List α → List α
  | [] => [x]
  | y :: t => if le x y then x :: y :: t else y :: insertLE le x t

/-- Stable insertion sort; for a total preorder this computes the same list
as Python's stable sorted. -/
def isortBy {α : Type} (le : α → α → Bool) : List α → List α
  | [] => []
  | x :: t => insertLE le x (isortBy le t)

/-! ### The record and file data model -/

/-- A CSV row or a form-data dict with string values, as an association
list. -/
abbrev Row := List (String × String)

/-- A Python dict whose values may be None (for the signature builder, which
special-cases None). -/
abbrev PyRow := List (String × Option String)

/-- A CSV file on disk: the header line plus the data rows.  Every row
written by the engine binds exactly the header's columns in header order,
which is what csv.DictReader hands back. -/
structure CSVFile where
  header : List String
  rows : List Row
deriving DecidableEq, Repr

/-- The forms directory: filename to file.  A missing entry is a missing
file. -/
abbrev Dir := List (String × CSVFile)

/-- One intake-form field: an entry of form['values'] with its name and
value, both taken as strings (the spec's data model: column name to scalar
string value). -/
structure FormField where
  name : String
  value : String
deriving DecidableEq, Repr

/-- A structured Acuity appointment record as produced by
acuity_client._structure_appointment_data, with the fields the CSV engine
reads.  All scalar fields are taken as strings per the spec's data model. -/
structure AcuityRecord where
  appointment_id : String
  client_name : String
  email : String
  phone : String
  datetime : String
  canceled : Bool
  appointment_type : String
  forms : List (List FormField)
deriving DecidableEq, Repr

/-- config.FORM_CSV_BASE_HEADERS from src/config.py. -/
def FORM_CSV_BASE_HEADERS : List String :=
  ["Timestamp", "Appointment ID", "Client Name", "Email", "Phone",
   "Appointment DateTime", "Canceled", "Rescheduled"]

/-! ### The signature builder (both duplicated versions) -/

/-- Value normalization inside the signature builders:
str(value).strip() if value is not None else the empty string. -/
def normalizeValue : Option String → String
  | some v => pyStrip v
  | none => ""

namespace CSVLogger

/-- The timestamp columns excluded by CSVLogger._create_record_signature. -/
def timestampFields : List String :=
  ["Export Timestamp", "Sync Timestamp", "Timestamp"]

/-- CSVLogger._create_record_signature (src/csv_logger.py lines 600-622):
sort the dict items by key (keys are unique in a dict, so sorting the pairs
lexicographically as Python does is sorting by key), drop the timestamp
columns, normalize each value, and join the "key:value" entries with "|". -/
def createRecordSignature (row : PyRow) : String :=
  let sortedItems := isortBy (fun p q => strLe p.1 q.1) row
  let fields := (sortedItems.filter
      (fun p => !(timestampFields.contains p.1))).map
      (fun p => p.1 ++ ":" ++ normalizeValue p.2)
  pyJoin "|" fields

end CSVLogger

namespace CSVSDK

/-- CSVSDK._create_record_signature (src/acuity_airtable_sdk.py lines
555-575): identical to the logger version except that only the single
column Export Timestamp is excluded. -/
def createRecordSignature (row : PyRow) : String :=
  let sortedItems := isortBy (fun p q => strLe p.1 q.1) row
  let fields := (sortedItems.filter
      (fun p => p.1 != "Export Timestamp")).map
      (fun p => p.1 ++ ":" ++ normalizeValue p.2)
  pyJoin "|" fields

end CSVSDK

/-- The logger signature applied to a CSV row (DictReader values are strings,
never None). -/
def rowSignature (row : Row) : String :=
  CSVLogger.createRecordSignature (row.map (fun p => (p.1, some p.2)))

/-! ### The filename/category classifier -/

/-- The CSVLogger configuration: the caller-supplied keyword list and
fallback name, after the constructor's defaulting (keywords or [],
fallback or "unknown_form_type"). -/
structure LoggerCfg where
  keywords : List String
  fallback : String
deriving Repr

/-- Anchored match of the price regex (free|paid|dollar-digits) on an
already lower-cased part. -/
def priceTagMatch (s : String) : Bool :=
  strStarts s "free" || strStarts s "paid" ||
    (match s.data with
     | '$' :: c :: _ => c.isDigit
     | _ => false)

/-- First character is an upper-case letter; false on the empty string
(Python indexes text[0] only behind a truthiness guard where relevant, and
the engine's callers catch the IndexError path). -/
def headIsUpper (s : String) : Bool :=
  match s.data with
  | c :: _ => c.isUpper
  | [] => false

/-- CSVLogger._looks_like_person_name (src/csv_logger.py lines 457-484). -/
def looksLikePersonName (cfg : LoggerCfg) (text : String) : Bool :=
  if (pyWords text).length > 5 then false
  else if !(headIsUpper text) then false
  else if (!cfg.keywords.isEmpty) &&
      cfg.keywords.any (fun kw => strHas (pyLower text) kw) then false
  else if ["help desk", "q&a", "session", "appointment", "workshop"].any
      (fun pat => strHas (pyLower text) pat) then false
  else true

/-- The for-loop of CSVLogger._extract_form_name_from_parts (lines 426-449):
first keyword match wins (break), price parts and person names are skipped
(continue), a part with parentheses is tried on its text before the
parenthesis first and falls through to the whole-part keyword test if that
text neither matches a keyword nor looks like a person name. -/
def extractNameLoop (cfg : LoggerCfg) : List String → Option String
  | [] => none
  | part :: rest =>
    let partLower := pyLower part
    if priceTagMatch partLower then extractNameLoop cfg rest
    else if strHas part "(" && strHas part ")" then
      let beforeParen := pyStrip ((pySplitChar part '(').headD "")
      if (!cfg.keywords.isEmpty) &&
          cfg.keywords.any (fun kw => strHas (pyLower beforeParen) kw) then
        some beforeParen
      else if looksLikePersonName cfg beforeParen then extractNameLoop cfg rest
      else if (!cfg.keywords.isEmpty) &&
          cfg.keywords.any (fun kw => strHas partLower kw) then some part
      else extractNameLoop cfg rest
    else if (!cfg.keywords.isEmpty) &&
        cfg.keywords.any (fun kw => strHas partLower kw) then some part
    else extractNameLoop cfg rest

/-- CSVLogger._fallback_form_name (src/csv_logger.py lines 486-525). -/
def fallbackFormName (cfg : LoggerCfg) (parts : List String) : String :=
  let appointmentType := pyJoin " | " parts
  let firstPart := parts.headD appointmentType
  if strHas firstPart "(" &&
      looksLikePersonName cfg (pyStrip ((pySplitChar firstPart '(').headD ""))
  then cfg.fallback
  else if decide (parts.length ≤ 2) &&
      decide ((pyWords appointmentType).length ≤ 4) &&
      headIsUpper appointmentType &&
      (cfg.keywords.isEmpty ||
        !cfg.keywords.any (fun kw => strHas (pyLower appointmentType) kw))
  then cfg.fallback
  else
    match parts.filter (fun p =>
        decide (p.data.length > 10) && !priceTagMatch (pyLower p)) with
    | m :: _ => m
    | [] => if appointmentType != "" then appointmentType else cfg.fallback

/-- CSVLogger._extract_form_name_from_parts (lines 416-455): the loop result
if it is a non-empty name, otherwise the fallback (Python tests the result
with a truthiness check, so an empty string also falls back). -/
def extractFormNameFromParts (cfg : LoggerCfg) (parts : List String) : String :=
  match extractNameLoop cfg parts with
  | some n => if n == "" then fallbackFormName cfg parts else n
  | none => fallbackFormName cfg parts

/-- Removal of a leading label (regex: one or more non-colon characters, a
colon, optional whitespace, anchored): drop through the first colon, if the
text before it is non-empty, plus any following whitespace. -/
def stripLabelColon (l : List Char) : List Char :=
  match l.takeWhile (fun c => c != ':'), l.dropWhile (fun c => c != ':') with
  | [], _ => l
  | _ :: _, ':' :: after => after.dropWhile isWs
  | _, _ => l

/-- Consume an anchored case-insensitive price token (FREE, PAID, or a
dollar sign followed by one or more digits), returning the remainder. -/
def afterPriceToken (l : List Char) : Option (List Char) :=
  if listIsPfx ['f', 'r', 'e', 'e'] (l.map lowerChar) then some (l.drop 4)
  else if listIsPfx ['p', 'a', 'i', 'd'] (l.map lowerChar) then some (l.drop 4)
  else
    match l with
    | '$' :: rest =>
      match rest.takeWhile Char.isDigit with
      | [] => none
      | ds => some (rest.drop ds.length)
    | _ => none

/-- Removal of a leading price tag and pipe (regex: price token, optional
whitespace, a pipe, optional whitespace, anchored, ignoring case). -/
def stripPriceTag (l : List Char) : List Char :=
  match afterPriceToken l with
  | none => l
  | some rest =>
    match rest.dropWhile isWs with
    | '|' :: after => after.dropWhile isWs
    | _ => l

/-- Match of one parenthetical chunk (regex: optional whitespace, an opening
parenthesis, any non-closing characters, a closing parenthesis) at the
current position, returning the remainder after the chunk. -/
def parenChunkRest (l : List Char) : Option (List Char) :=
  match l.dropWhile isWs with
  | '(' :: rest =>
    match rest.dropWhile (fun c => c != ')') with
    | ')' :: after => some after
    | _ => none
  | _ => none

/-- Global removal of parenthetical chunks, scanning left to right as
re.sub does.  Each removed chunk consumes at least two characters, so the
input length is enough fuel. -/
def removeParensAux : Nat → List Char → List Char
  | 0, l => l
  | _ + 1, [] => []
  | fuel + 1, c :: t =>
    match parenChunkRest (c :: t) with
    | some rest => removeParensAux fuel rest
    | none => c :: removeParensAux fuel t

/-- re.sub of optional whitespace plus a parenthetical, globally. -/
def removeParens (l : List Char) : List Char := removeParensAux l.length l

/-- The character class of the kept characters in the cleaned name. -/
def lowerAlnum (c : Char) : Bool :=
  (decide ('a' ≤ c) && decide (c ≤ 'z')) || c.isDigit

/-- re.sub replacing every maximal run of characters outside the kept class
with one underscore.  The flag records whether the previous character was
part of such a run. -/
def underscoreRuns : Bool → List Char → List Char
  | _, [] => []
  | prevBad, c :: t =>
    if lowerAlnum c then c :: underscoreRuns false t
    else if prevBad then underscoreRuns true t
    else '_' :: underscoreRuns true t

/-- Python s.strip of underscores. -/
def stripUnderscores (l : List Char) : List Char :=
  ((l.dropWhile (fun c => c == '_')).reverse.dropWhile (fun c => c == '_')).reverse

/-- CSVLogger._clean_form_name (src/csv_logger.py lines 527-557). -/
def cleanFormName (formName : String) : String :=
  let s1 := stripLabelColon formName.data
  let s2 := stripPriceTag s1
  let s3 := removeParens s2
  let lowered := s3.map lowerChar
  let collapsed := underscoreRuns false lowered
  let stripped := stripUnderscores collapsed
  if stripped.length < 3 then "unknown_form_type"
  else if decide (stripped.length > 100) then String.mk (stripped.take 100)
  else String.mk stripped

/-- CSVLogger._get_form_csv_filename (src/csv_logger.py lines 395-414). -/
def getFormCsvFilename (cfg : LoggerCfg) (appointmentType : String) : String :=
  let parts := (pySplitChar appointmentType '|').map pyStrip
  cleanFormName (extractFormNameFromParts cfg parts) ++ ".csv"

/-! ### The dedup/append engine -/

/-- Python str(bool) rendering used for the Canceled and Rescheduled
columns. -/
def boolYesNo (b : Bool) : String := if b then "Yes" else "No"

/-- CSVLogger._check_if_rescheduled (src/csv_logger.py lines 170-215): scan
every CSV file of the forms directory; the record counts as rescheduled
exactly when some row carries the same Appointment ID but a different
Appointment DateTime or Canceled value.  An empty id returns false at
once. -/
def checkIfRescheduled (dir : Dir) (appointmentId currentDatetime : String)
    (isCanceled : Bool) : Bool :=
  if appointmentId == "" then false
  else dir.any (fun nf =>
    strEnds nf.1 ".csv" &&
    nf.2.rows.any (fun row =>
      alistGetD row "Appointment ID" "" == appointmentId &&
      (alistGetD row "Appointment DateTime" "" != currentDatetime ||
       alistGetD row "Canceled" "No" != boolYesNo isCanceled)))

/-- One iteration of the inner field loop of _extract_form_data: a field
with a non-blank stripped name is written into the form-data dict. -/
def fieldStep (fd : Row) (field : FormField) : Row :=
  if pyStrip field.name != "" then
    alistUpsert fd (pyStrip field.name) field.value
  else fd

/-- The inner loop of _extract_form_data over one form's values. -/
def applyForm (fd : Row) (form : List FormField) : Row :=
  form.foldl fieldStep fd

/-- The outer loop of _extract_form_data over all forms. -/
def applyForms (fd : Row) (forms : List (List FormField)) : Row :=
  forms.foldl applyForm fd

/-- The base eight columns _extract_form_data starts the form-data dict
with (src/csv_logger.py lines 149-158).  The datetime formatter is the pure
_format_datetime_to_est, abstracted as the parameter fmt; syncTs is the
datetime.now() string. -/
def baseFormData (dir : Dir) (fmt : String → String) (syncTs : String)
    (rec : AcuityRecord) : Row :=
  [("Sync Timestamp", syncTs),
   ("Appointment ID", rec.appointment_id),
   ("Client Name", rec.client_name),
   ("Email", rec.email),
   ("Phone", rec.phone),
   ("Appointment DateTime", fmt rec.datetime),
   ("Canceled", boolYesNo rec.canceled),
   ("Rescheduled", boolYesNo
     (checkIfRescheduled dir rec.appointment_id (fmt rec.datetime)
       rec.canceled))]

/-- CSVLogger._extract_form_data (src/csv_logger.py lines 128-168): none
when the record has no forms, else the base eight columns followed by every
non-blank-named form field (a repeated or reserved field name overwrites,
as a dict assignment does). -/
def extractFormData (dir : Dir) (fmt : String → String) (syncTs : String)
    (rec : AcuityRecord) : Option Row :=
  if rec.forms.isEmpty then none
  else some (applyForms (baseFormData dir fmt syncTs rec) rec.forms)

/-- The ingestion-order sort key of the logger's inferencer:
row.get(Export Timestamp, empty) or row.get(Sync Timestamp, empty). -/
def tsSortKey (r : Row) : String :=
  let e := alistGetD r "Export Timestamp" ""
  if e == "" then alistGetD r "Sync Timestamp" "" else e

/-- The ingestion-order sort key of the SDK's inferencer:
row.get(Export Timestamp, empty). -/
def sdkTsSortKey (r : Row) : String := alistGetD r "Export Timestamp" ""

/-- The rows sharing one Appointment ID, with their positions
(records_by_appointment of the inferencer). -/
def groupRows (rows : List Row) (aptId : String) : List (Nat × Row) :=
  (enumFromN 0 rows).filter (fun p => alistGetD p.2 "Appointment ID" "" == aptId)

/-- The number of distinct non-empty Appointment DateTime values of a group
(the size of the datetimes set in the inferencer). -/
def groupDatetimeCount (g : List (Nat × Row)) : Nat :=
  (((g.map (fun p => alistGetD p.2 "Appointment DateTime" "")).filter
      (fun d => d != "")).dedup).length

/-- The row positions one inferencer group updates: for a group with at
least two rows and at least two distinct non-empty datetimes, stably sort by
the ingestion key and take every non-first row whose datetime differs from
the first row's and whose flag is not already Yes. -/
def groupFixTargets (key : Row → String) (g : List (Nat × Row)) : List Nat :=
  if g.length ≤ 1 then []
  else if groupDatetimeCount g ≤ 1 then []
  else
    match isortBy (fun a b => strLe (key a.2) (key b.2)) g with
    | [] => []
    | first :: rest =>
      let firstDt := alistGetD first.2 "Appointment DateTime" ""
      (rest.filter (fun p =>
        alistGetD p.2 "Appointment DateTime" "" != firstDt &&
        alistGetD p.2 "Rescheduled" "No" != "Yes")).map (fun p => p.1)

/-- The distinct non-empty Appointment IDs of a row list (each row belongs
to at most one inferencer group). -/
def rowIds (rows : List Row) : List String :=
  ((rows.map (fun r => alistGetD r "Appointment ID" "")).filter
      (fun i => i != "")).dedup

/-- All update positions of the fix pass, over all groups. -/
def fixTargets (key : Row → String) (rows : List Row) : List Nat :=
  (rowIds rows).foldl
    (fun acc i => acc ++ groupFixTargets key (groupRows rows i)) []

/-- The row transformer applied by the fix pass: records at a selected
position get Rescheduled set to Yes. -/
def fixUpd (targets : List Nat) (p : Nat × Row) : Row :=
  if targets.contains p.1 then alistUpsert p.2 "Rescheduled" "Yes" else p.2

/-- The row-list level of _fix_rescheduled_field_in_file: collect all update
positions over all groups, set Rescheduled to Yes there, and report whether
any update was made (each collected position is an actual flag change, so
updates_made is exactly the non-emptiness of the collection). -/
def fixRescheduledRows (key : Row → String) (rows : List Row) :
    List Row × Bool :=
  let targets := fixTargets key rows
  if targets.isEmpty then (rows, false)
  else ((enumFromN 0 rows).map (fixUpd targets), true)

/-- CSVLogger._fix_rescheduled_field_in_file (src/csv_logger.py lines
282-358) on an existing file: a file without a Rescheduled column or
without rows is left alone, else the fixed rows are written back exactly
when a flag changed. -/
def fixRescheduledFieldInFile (f : CSVFile) : CSVFile × Bool :=
  if !(f.header.contains "Rescheduled") then (f, false)
  else if f.rows.isEmpty then (f, false)
  else
    let res := fixRescheduledRows tsSortKey f.rows
    (⟨f.header, res.1⟩, res.2)

/-- The keep-first-occurrence scan of _dedupe_csv_file, with the set of
already-seen signatures. -/
def dedupeRowsAux (seen : List String) : List Row → List Row
  | [] => []
  | r :: t =>
    let s := rowSignature r
    if seen.contains s then dedupeRowsAux seen t
    else r :: dedupeRowsAux (s :: seen) t

/-- CSVLogger._dedupe_csv_file (src/csv_logger.py lines 559-598): drop every
row whose signature already occurred earlier in the file (the file is
rewritten only when a duplicate was found, which leaves the same contents as
always writing the kept rows). -/
def dedupeCsvFile (f : CSVFile) : CSVFile := ⟨f.header, dedupeRowsAux [] f.rows⟩

/-- The header merge of _write_form_csv (lines 254-260): the existing header
if any, else the configured base headers, then every form-data key not yet
present appended in encounter order. -/
def mergedHeaders (existing : List String) (fd : Row) : List String :=
  let base := if existing.isEmpty then FORM_CSV_BASE_HEADERS else existing
  fd.foldl (fun hs p => if hs.contains p.1 then hs else hs ++ [p.1]) base

/-- One row as csv.DictWriter lays it out for the given field names: the
dict's value for each header column, the empty string (restval) for a
column the dict lacks. -/
def storedRow (headers : List String) (fd : Row) : Row :=
  headers.map (fun h => (h, alistGetD fd h ""))

/-- CSVLogger._rewrite_csv_with_new_headers (src/csv_logger.py lines
360-393): rewrite every existing row padded to the new headers, then append
the new row. -/
def rewriteCsvWithNewHeaders (f : CSVFile) (newHeaders : List String)
    (newRow : Row) : CSVFile :=
  ⟨newHeaders,
   f.rows.map (fun r => storedRow newHeaders r) ++ [storedRow newHeaders newRow]⟩

/-- Set equality of two header lists (Python set(all) != set(existing)). -/
def sameHeaderSet (a b : List String) : Bool :=
  a.all (fun h => b.contains h) && b.all (fun h => a.contains h)

/-- The fate _write_form_csv chose for a record (observable instrumentation
of the model; the Python function communicates it only through its effect). -/
inductive WriteAction
  | skipped
  | appended
  | rewritten
deriving DecidableEq, Repr

/-- CSVLogger._write_form_csv (src/csv_logger.py lines 217-280): skip when
the new record's signature already occurs among the rows; otherwise merge
headers, rewrite the whole file when an existing non-empty header gained a
column (set comparison), else append; always run the inferencer and the
dedup sweep afterwards. -/
def writeFormCsv (file : Option CSVFile) (formData : Row) :
    CSVFile × WriteAction :=
  match file with
  | some f =>
    if f.rows.any (fun r => rowSignature r == rowSignature formData) then
      (f, WriteAction.skipped)
    else
      let allHeaders := mergedHeaders f.header formData
      if !f.header.isEmpty && !sameHeaderSet allHeaders f.header then
        let f1 := rewriteCsvWithNewHeaders f allHeaders formData
        (dedupeCsvFile (fixRescheduledFieldInFile f1).1, WriteAction.rewritten)
      else
        let f1 : CSVFile := ⟨allHeaders, f.rows ++ [storedRow allHeaders formData]⟩
        (dedupeCsvFile (fixRescheduledFieldInFile f1).1, WriteAction.appended)
  | none =>
    let allHeaders := mergedHeaders [] formData
    let f1 : CSVFile := ⟨allHeaders, [storedRow allHeaders formData]⟩
    (dedupeCsvFile (fixRescheduledFieldInFile f1).1, WriteAction.appended)

/-- CSVLogger.log_form_data (src/csv_logger.py lines 105-126) as a state
transition on the forms directory, also reporting the action taken (none
when the record had no form data and nothing was touched). -/
def logFormData (cfg : LoggerCfg) (fmt : String → String) (dir : Dir)
    (syncTs : String) (rec : AcuityRecord) : Dir × Option WriteAction :=
  match extractFormData dir fmt syncTs rec with
  | none => (dir, none)
  | some fd =>
    let fname := getFormCsvFilename cfg rec.appointment_type
    let res := writeFormCsv (alistGet? dir fname) fd
    (alistUpsert dir fname res.1, some res.2)

/-- One engine operation: a record logged at one ingestion timestamp. -/
structure LogOp where
  syncTs : String
  record : AcuityRecord
deriving Repr

/-- A batch of log_form_data calls against the forms directory. -/
def runLog (cfg : LoggerCfg) (fmt : String → String) (ops : List LogOp) : Dir :=
  ops.foldl (fun d op => (logFormData cfg fmt d op.syncTs op.record).1) []

/-! ### Order facts for the code-point comparison -/

theorem char_toNat_inj {a b : Char} (h : a.toNat = b.toNat) : a = b := by
  apply Char.ext
  exact UInt32.toNat.inj h

theorem charLt_or_eq (a b : Char) :
    charLt a b = true ∨ a = b ∨ charLt b a = true := by
  rcases Nat.lt_trichotomy a.toNat b.toNat with h | h | h
  · exact Or.inl (by simpa [charLt] using h)
  · exact Or.inr (Or.inl (char_toNat_inj h))
  · exact Or.inr (Or.inr (by simpa [charLt] using h))

theorem charListLe_total : ∀ a b : List Char,
    charListLe a b = true ∨ charListLe b a = true
  | [], _ => Or.inl rfl
  | _ :: _, [] => Or.inr rfl
  | x :: xs, y :: ys => by
    by_cases hxy : x = y
    · subst hxy
      simpa [charListLe] using charListLe_total xs ys
    · rcases charLt_or_eq x y with h | h | h
      · left; simp [charListLe, hxy, h]
      · exact absurd h hxy
      · right; simp [charListLe, Ne.symm hxy, h]

theorem charListLe_trans : ∀ {a b c : List Char},
    charListLe a b = true → charListLe b c = true → charListLe a c = true
  | [], _, _, _, _ => rfl
  | _ :: _, [], _, h1, _ => by simp [charListLe] at h1
  | _ :: _, _ :: _, [], _, h2 => by simp [charListLe] at h2
  | x :: xs, y :: ys, z :: zs, h1, h2 => by
    by_cases hxy : x = y
    · subst hxy
      by_cases hyz : x = z
      · subst hyz
        simp only [charListLe, if_pos rfl] at h1 h2 ⊢
        exact charListLe_trans h1 h2
      · simp only [charListLe, if_pos rfl, if_neg hyz] at h1 h2 ⊢
        exact h2
    · by_cases hyz : y = z
      · subst hyz
        simp only [charListLe, if_neg hxy] at h1 ⊢
        exact h1
      · simp only [charListLe, if_neg hxy, if_neg hyz] at h1 h2
        have hlt : charLt x z = true := by
          simp only [charLt, decide_eq_true_eq] at h1 h2 ⊢
          exact Nat.lt_trans h1 h2
        by_cases hxz : x = z
        · subst hxz
          simp only [charLt, decide_eq_true_eq] at hlt
          exact absurd hlt (Nat.lt_irrefl _)
        · simp [charListLe, hxz, hlt]

theorem charListLe_antisymm : ∀ {a b : List Char},
    charListLe a b = true → charListLe b a = true → a = b
  | [], [], _, _ => rfl
  | [], _ :: _, _, h2 => by simp [charListLe] at h2
  | _ :: _, [], h1, _ => by simp [charListLe] at h1
  | x :: xs, y :: ys, h1, h2 => by
    by_cases hxy : x = y
    · subst hxy
      simp only [charListLe, if_pos rfl] at h1 h2
      rw [charListLe_antisymm h1 h2]
    · simp only [charListLe, if_neg hxy, if_neg (Ne.symm hxy), charLt,
        decide_eq_true_eq] at h1 h2
      exact absurd h2 (Nat.lt_asymm h1)

theorem strLe_total (s t : String) : strLe s t = true ∨ strLe t s = true :=
  charListLe_total s.data t.data

theorem strLe_trans {s t u : String} (h1 : strLe s t = true)
    (h2 : strLe t u = true) : strLe s u = true :=
  charListLe_trans h1 h2

theorem strLe_antisymm {s t : String} (h1 : strLe s t = true)
    (h2 : strLe t s = true) : s = t := by
  cases s; cases t
  exact congrArg String.mk (charListLe_antisymm h1 h2)

theorem strLe_refl (s : String) : strLe s s = true := by
  rcases strLe_total s s with h | h <;> exact h

/-! ### Insertion sort lemmas -/

theorem insertLE_perm {α : Type} (le : α → α → Bool) (x : α) :
    ∀ l : List α, (insertLE le x l).Perm (x :: l)
  | [] => List.Perm.refl _
  | y :: t => by
    by_cases h : le x y = true
    · simp [insertLE, h]
    · simp only [insertLE, h]
      rw [if_neg (by simp [h])]
      exact ((insertLE_perm le x t).cons y).trans (List.Perm.swap x y t)

theorem isortBy_perm {α : Type} (le : α → α → Bool) :
    ∀ l : List α, (isortBy le l).Perm l
  | [] => List.Perm.refl _
  | x :: t =>
    (insertLE_perm le x (isortBy le t)).trans ((isortBy_perm le t).cons x)

theorem mem_insertLE {α : Type} {le : α → α → Bool} {x z : α} {l : List α}
    (h : z ∈ insertLE le x l) : z = x ∨ z ∈ l :=
  by simpa using (insertLE_perm le x l).mem_iff.mp h

theorem insertLE_pairwise {α : Type} {le : α → α → Bool}
    (htot : ∀ a b, le a b = true ∨ le b a = true)
    (htr : ∀ {a b c}, le a b = true → le b c = true → le a c = true)
    {x : α} : ∀ {l : List α},
    List.Pairwise (fun a b => le a b = true) l →
    List.Pairwise (fun a b => le a b = true) (insertLE le x l)
  | [], _ => List.pairwise_singleton _ _
  | y :: t, h => by
    rcases List.pairwise_cons.mp h with ⟨hy, ht⟩
    by_cases hxy : le x y = true
    · simp only [insertLE, if_pos hxy]
      refine List.pairwise_cons.mpr ⟨?_, h⟩
      intro z hz
      rcases hz with _ | hz
      · exact hxy
      · exact htr hxy (hy _ (by assumption))
    · have hyx : le y x = true := (htot x y).resolve_left hxy
      simp only [insertLE, if_neg hxy]
      refine List.pairwise_cons.mpr ⟨?_, insertLE_pairwise htot htr ht⟩
      intro z hz
      rcases mem_insertLE hz with rfl | hz
      · exact hyx
      · exact hy _ hz

theorem isortBy_pairwise {α : Type} {le : α → α → Bool}
    (htot : ∀ a b, le a b = true ∨ le b a = true)
    (htr : ∀ {a b c}, le a b = true → le b c = true → le a c = true) :
    ∀ l : List α, List.Pairwise (fun a b => le a b = true) (isortBy le l)
  | [] => List.Pairwise.nil
  | _ :: t => insertLE_pairwise htot htr (isortBy_pairwise htot htr t)

theorem insertLE_map {α β : Type} (f : α → β) (le : β → β → Bool)
    (le' : α → α → Bool) (hc : ∀ a b, le' a b = le (f a) (f b)) (x : α) :
    ∀ l : List α, (insertLE le' x l).map f = insertLE le (f x) (l.map f)
  | [] => rfl
  | y :: t => by
    by_cases h : le' x y = true
    · simp [insertLE, h, (hc x y).symm.trans h]
    · have h2 : le (f x) (f y) = false := by
        rw [← hc x y]; exact Bool.of_not_eq_true h
      simp [insertLE, h, h2, insertLE_map f le le' hc x t]

theorem isortBy_map {α β : Type} (f : α → β) (le : β → β → Bool)
    (le' : α → α → Bool) (hc : ∀ a b, le' a b = le (f a) (f b)) :
    ∀ l : List α, (isortBy le' l).map f = isortBy le (l.map f)
  | [] => rfl
  | x :: t => by
    simp only [isortBy, List.map_cons]
    rw [insertLE_map f le le' hc, isortBy_map f le le' hc]

/-- Sorted lists of strings that are permutations of each other and free of
duplicates are equal. -/
theorem sorted_nodup_perm_eq {l₁ l₂ : List String} (hp : l₁.Perm l₂)
    (hs₁ : List.Pairwise (fun a b => strLe a b = true) l₁)
    (hs₂ : List.Pairwise (fun a b => strLe a b = true) l₂)
    (hnd : l₁.Nodup) : l₁ = l₂ := by
  have hnd₂ : l₂.Nodup := hp.nodup hnd
  have h₁ : List.Pairwise (fun a b => strLe a b = true ∧ a ≠ b) l₁ := hs₁.and hnd
  have h₂ : List.Pairwise (fun a b => strLe a b = true ∧ a ≠ b) l₂ := hs₂.and hnd₂
  have : IsAntisymm String (fun a b => strLe a b = true ∧ a ≠ b) :=
    ⟨fun _ _ h h' => strLe_antisymm h.1 h'.1⟩
  exact List.eq_of_perm_of_sorted hp h₁ h₂

/-! ### Association list lemmas -/

theorem alistGet?_cons {α : Type} (k : String) (p : String × α)
    (l : List (String × α)) :
    alistGet? (p :: l) k = if p.1 = k then some p.2 else alistGet? l k := by
  by_cases h : p.1 = k
  · simp [alistGet?, List.find?_cons, h]
  · simp [alistGet?, List.find?_cons, h]

theorem alistGet?_nil {α : Type} (k : String) :
    alistGet? ([] : List (String × α)) k = none := rfl

theorem alistGet?_keyFn {α : Type} (g : String → α) (k : String)
    (hs : List String) :
    alistGet? (hs.map (fun h => (h, g h))) k =
      if k ∈ hs then some (g k) else none := by
  induction hs with
  | nil => rfl
  | cons h t ih =>
    by_cases hk : h = k
    · subst hk
      simp [alistGet?_cons, ih]
    · simp [alistGet?_cons, hk, ih, Ne.symm hk]

theorem alistGet?_eq_of_mem_nodup {α : Type} {l : List (String × α)}
    {k : String} {v : α} (hnd : (l.map Prod.fst).Nodup) (hm : (k, v) ∈ l) :
    alistGet? l k = some v := by
  induction l with
  | nil => cases hm
  | cons p t ih =>
    rcases List.mem_cons.mp hm with rfl | hm
    · simp [alistGet?_cons]
    · have hk : p.1 ≠ k := by
        intro h
        have hmem : k ∈ t.map Prod.fst := List.mem_map.mpr ⟨(k, v), hm, rfl⟩
        rw [List.map_cons, List.nodup_cons, h] at hnd
        exact hnd.1 hmem
      rw [alistGet?_cons, if_neg hk]
      exact ih (List.nodup_cons.mp (by simpa using hnd)).2 hm

theorem alistGet?_mem {α : Type} {l : List (String × α)} {k : String} {v : α}
    (h : alistGet? l k = some v) : (k, v) ∈ l := by
  induction l with
  | nil => simp [alistGet?] at h
  | cons p t ih =>
    rw [alistGet?_cons] at h
    by_cases hk : p.1 = k
    · rw [if_pos hk] at h
      refine List.mem_cons.mpr (Or.inl ?_)
      obtain ⟨a, b⟩ := p
      cases h
      simp only at hk
      rw [hk]
    · rw [if_neg hk] at h
      exact List.mem_cons_of_mem _ (ih h)

theorem alistGet?_append {α : Type} (l m : List (String × α)) (k : String) :
    alistGet? (l ++ m) k = (alistGet? l k).or (alistGet? m k) := by
  unfold alistGet?
  rw [List.find?_append]
  cases List.find? (fun p => p.1 == k) l <;> simp

theorem alistGet?_mapUpd_self {α : Type} (l : List (String × α)) (k : String)
    (v : α) :
    alistGet? (l.map (fun p => if p.1 == k then (k, v) else p)) k =
      (alistGet? l k).map (fun _ => v) := by
  induction l with
  | nil => rfl
  | cons q t ih =>
    by_cases hq : q.1 = k
    · simp [alistGet?_cons, hq]
    · rw [List.map_cons, if_neg (by simpa using hq), alistGet?_cons,
        alistGet?_cons, if_neg hq, if_neg hq, ih]

theorem alistGet?_mapUpd_ne {α : Type} (l : List (String × α)) {k k' : String}
    (v : α) (h : k' ≠ k) :
    alistGet? (l.map (fun p => if p.1 == k' then (k', v) else p)) k =
      alistGet? l k := by
  induction l with
  | nil => rfl
  | cons q t ih =>
    by_cases hq : q.1 = k'
    · rw [List.map_cons, if_pos (by simpa using hq), alistGet?_cons,
        alistGet?_cons, if_neg h, if_neg (hq ▸ h), ih]
    · rw [List.map_cons, if_neg (by simpa using hq), alistGet?_cons,
        alistGet?_cons, ih]

theorem alistHas_get {α : Type} {l : List (String × α)} {k : String}
    (h : alistHas l k = true) : ∃ w, alistGet? l k = some w := by
  induction l with
  | nil => simp [alistHas] at h
  | cons q t ih =>
    by_cases hq : q.1 = k
    · exact ⟨q.2, by rw [alistGet?_cons, if_pos hq]⟩
    · have ht : alistHas t k = true := by
        unfold alistHas at h ⊢
        rcases List.any_eq_true.mp h with ⟨p, hp, hk⟩
        rcases List.mem_cons.mp hp with rfl | hp'
        · exact absurd (by simpa using hk) hq
        · exact List.any_eq_true.mpr ⟨p, hp', hk⟩
      rcases ih ht with ⟨w, hw⟩
      exact ⟨w, by rw [alistGet?_cons, if_neg hq, hw]⟩

theorem alistUpsert_get_self {α : Type} (l : List (String × α)) (k : String)
    (v : α) : alistGet? (alistUpsert l k v) k = some v := by
  unfold alistUpsert
  by_cases h : alistHas l k = true
  · rw [if_pos h, alistGet?_mapUpd_self]
    rcases alistHas_get h with ⟨w, hw⟩
    rw [hw]
    rfl
  · rw [if_neg h, alistGet?_append]
    have hnone : alistGet? l k = none := by
      cases hfind : List.find? (fun p => p.1 == k) l with
      | none => simp [alistGet?, hfind]
      | some p =>
        exact absurd (List.any_eq_true.mpr
          ⟨p, List.mem_of_find?_eq_some hfind, List.find?_some hfind⟩) h
    rw [hnone]
    simp [alistGet?_cons]

theorem alistUpsert_get_ne {α : Type} (l : List (String × α)) {k k' : String}
    (v : α) (h : k' ≠ k) : alistGet? (alistUpsert l k' v) k = alistGet? l k := by
  unfold alistUpsert
  by_cases hh : alistHas l k' = true
  · rw [if_pos hh, alistGet?_mapUpd_ne l v h]
  · rw [if_neg hh, alistGet?_append]
    have : alistGet? [(k', v)] k = none := by
      simp [alistGet?_cons, h, alistGet?]
    rw [this]
    cases alistGet? l k <;> rfl

theorem alistGetD_upsert_self (l : Row) (k : String) (v d : String) :
    alistGetD (alistUpsert l k v) k d = v := by
  simp [alistGetD, alistUpsert_get_self]

theorem alistGetD_upsert_ne (l : Row) {k k' : String} (v d : String)
    (h : k' ≠ k) : alistGetD (alistUpsert l k' v) k d = alistGetD l k d := by
  simp [alistGetD, alistUpsert_get_ne l v h]

theorem alistUpsert_keys_of_has {α : Type} {l : List (String × α)}
    {k : String} (v : α) (h : alistHas l k = true) :
    (alistUpsert l k v).map Prod.fst = l.map Prod.fst := by
  unfold alistUpsert
  rw [if_pos h]
  rw [List.map_map]
  apply List.map_congr_left
  intro p _
  by_cases hp : p.1 = k
  · simp [hp]
  · simp [hp]

theorem alistGet?_eq_none_iff {α : Type} {l : List (String × α)} {k : String} :
    alistGet? l k = none ↔ ∀ p ∈ l, p.1 ≠ k := by
  unfold alistGet?
  constructor
  · intro h p hp
    cases hfind : List.find? (fun p => p.1 == k) l with
    | none =>
      have := List.find?_eq_none.mp hfind p hp
      simpa using this
    | some q => rw [hfind] at h; cases h
  · intro h
    rw [List.find?_eq_none.mpr (fun p hp => by simpa using h p hp)]
    rfl

/-! ### Signature builder analysis -/

/-- The value a Python dict holds at a key (None when the key is absent, so
an explicit None binding and an absent key read the same, as in Python
row.get(k)). -/
def pyValue (row : PyRow) (k : String) : Option String :=
  (alistGet? row k).getD none

theorem pyValue_perm {r₁ r₂ : PyRow} (hp : r₁.Perm r₂)
    (hnd : (r₁.map Prod.fst).Nodup) (k : String) :
    pyValue r₁ k = pyValue r₂ k := by
  have hnd₂ : (r₂.map Prod.fst).Nodup := ((hp.map Prod.fst).nodup hnd)
  unfold pyValue
  cases h : alistGet? r₁ k with
  | some v =>
    rw [alistGet?_eq_of_mem_nodup hnd₂ (hp.mem_iff.mp (alistGet?_mem h))]
  | none =>
    rw [alistGet?_eq_none_iff.mpr
      (fun p hp2 => alistGet?_eq_none_iff.mp h p (hp.mem_iff.mpr hp2))]

theorem keyFn_decomp {σ τ : Type} : ∀ {l : List (σ × τ)} {K : List σ}
    {g : σ → τ}, l.map Prod.fst = K → (∀ p ∈ l, p.2 = g p.1) →
    l = K.map (fun k => (k, g k)) := by
  intro l
  induction l with
  | nil =>
    intro K g hK _
    rw [← hK]
    rfl
  | cons p t ih =>
    intro K g hK hv
    cases K with
    | nil => cases hK
    | cons k K' =>
      rw [List.map_cons] at hK
      have h1 : p.1 = k := (List.cons.injEq _ _ _ _).mp hK |>.1
      have h2 : t.map Prod.fst = K' := (List.cons.injEq _ _ _ _).mp hK |>.2
      have hp2 : p.2 = g p.1 := hv p (List.mem_cons_self _ _)
      rw [List.map_cons]
      have hpe : p = (k, g k) := by
        obtain ⟨a, b⟩ := p
        simp only at h1 hp2
        rw [h1] at hp2 ⊢
        rw [hp2]
      rw [hpe]
      rw [ih h2 (fun q hq => hv q (List.mem_cons_of_mem _ hq))]

/-- A key-unique dict sorted by key is the key-function tabulation of its
sorted key list. -/
theorem isortPairs_eq (row : PyRow) (hnd : (row.map Prod.fst).Nodup) :
    isortBy (fun p q => strLe p.1 q.1) row =
      (isortBy strLe (row.map Prod.fst)).map (fun k => (k, pyValue row k)) := by
  apply keyFn_decomp
  · exact isortBy_map Prod.fst strLe _ (fun _ _ => rfl) row
  · intro p hp
    have hmem : p ∈ row :=
      (isortBy_perm (fun p q => strLe p.1 q.1) row).mem_iff.mp hp
    have : alistGet? row p.1 = some p.2 := by
      apply alistGet?_eq_of_mem_nodup hnd
      obtain ⟨a, b⟩ := p
      exact hmem
    unfold pyValue
    rw [this]
    rfl

/-- Helper form of the signature: the join over the sorted, filtered key
list, reading values through the dict. -/
def sigOfKeyList (ks : List String) (g : String → Option String) : String :=
  pyJoin "|" (ks.map (fun k => k ++ ":" ++ normalizeValue (g k)))

theorem loggerSig_eq_keyList (row : PyRow) (hnd : (row.map Prod.fst).Nodup) :
    CSVLogger.createRecordSignature row =
      sigOfKeyList ((isortBy strLe (row.map Prod.fst)).filter
        (fun k => !(CSVLogger.timestampFields.contains k))) (pyValue row) := by
  simp only [CSVLogger.createRecordSignature, sigOfKeyList]
  rw [isortPairs_eq row hnd]
  rw [List.filter_map, List.map_map]
  rfl

theorem sdkSig_eq_keyList (row : PyRow) (hnd : (row.map Prod.fst).Nodup) :
    CSVSDK.createRecordSignature row =
      sigOfKeyList ((isortBy strLe (row.map Prod.fst)).filter
        (fun k => k != "Export Timestamp")) (pyValue row) := by
  simp only [CSVSDK.createRecordSignature, sigOfKeyList]
  rw [isortPairs_eq row hnd]
  rw [List.filter_map, List.map_map]
  rfl

/-- The signature is a function of the keys and the normalized values: rows
agreeing pointwise after value normalization have equal signatures. -/
theorem sig_congr_norm {r₁ r₂ : PyRow}
    (h : r₁.map (fun p => (p.1, normalizeValue p.2)) =
         r₂.map (fun p => (p.1, normalizeValue p.2))) :
    CSVLogger.createRecordSignature r₁ = CSVLogger.createRecordSignature r₂ := by
  simp only [CSVLogger.createRecordSignature]
  have key : ∀ r : PyRow,
      ((isortBy (fun p q : String × Option String => strLe p.1 q.1) r).filter
        (fun p => !(CSVLogger.timestampFields.contains p.1))).map
        (fun p => p.1 ++ ":" ++ normalizeValue p.2) =
      ((isortBy (fun p q : String × String => strLe p.1 q.1)
          (r.map (fun p => (p.1, normalizeValue p.2)))).filter
        (fun p => !(CSVLogger.timestampFields.contains p.1))).map
        (fun p => p.1 ++ ":" ++ p.2) := by
    intro r
    rw [← isortBy_map (fun p => (p.1, normalizeValue p.2))
      (fun p q : String × String => strLe p.1 q.1)
      (fun p q : String × Option String => strLe p.1 q.1) (fun _ _ => rfl) r]
    rw [List.filter_map, List.map_map]
    rfl
  rw [key r₁, key r₂, h]

/-- Claim C3: the signature function is order-independent and deterministic.
For every pair of Records holding the same (column, value) pairs in
different orders (a permutation; a Python dict has unique column names), the
signatures are equal. -/
theorem c3_signature_order_independent (r₁ r₂ : PyRow) (hperm : r₁.Perm r₂)
    (hnd : (r₁.map Prod.fst).Nodup) :
    CSVLogger.createRecordSignature r₁ = CSVLogger.createRecordSignature r₂ := by
  have hnd₂ : (r₂.map Prod.fst).Nodup := (hperm.map Prod.fst).nodup hnd
  rw [loggerSig_eq_keyList r₁ hnd, loggerSig_eq_keyList r₂ hnd₂]
  have hkeys : isortBy strLe (r₁.map Prod.fst) =
      isortBy strLe (r₂.map Prod.fst) := by
    apply sorted_nodup_perm_eq
    · exact ((isortBy_perm strLe _).trans (hperm.map Prod.fst)).trans
        (isortBy_perm strLe _).symm
    · exact isortBy_pairwise strLe_total (fun h1 h2 => strLe_trans h1 h2) _
    · exact isortBy_pairwise strLe_total (fun h1 h2 => strLe_trans h1 h2) _
    · exact (isortBy_perm strLe _).symm.nodup hnd
  rw [hkeys]
  unfold sigOfKeyList
  congr 1
  apply List.map_congr_left
  intro k _
  rw [pyValue_perm hperm hnd k]

/-- Witness for C3 at a concrete two-column record and its swap. -/
theorem c3_witness :
    CSVLogger.createRecordSignature [("B", some "2"), ("A", some "1")] =
      CSVLogger.createRecordSignature [("A", some "1"), ("B", some "2")] :=
  c3_signature_order_independent _ _ (List.Perm.swap _ _ _) (by decide)

/-- Claim C4 counterexample: a Record lacking column B and a Record carrying
column B with the empty value do NOT produce equal signatures; the absent
column contributes no entry at all, while the present-but-empty column
contributes the entry B-colon. -/
theorem c4_counterexample :
    CSVLogger.createRecordSignature [("A", some "1")] ≠
      CSVLogger.createRecordSignature [("A", some "1"), ("B", some "")] := by
  decide

/-- Claim C4 as amended: for Records agreeing on all other columns, a column
present with a whitespace-only value and the same column present with the
empty value produce equal signatures (both normalize to the same col-colon
entry); a Record in which the column is absent omits that entry entirely,
so absent and present-but-empty are distinguishable (see the
counterexample). -/
theorem c4_amended (row : PyRow) (c w : String) (hw : pyStrip w = "") :
    CSVLogger.createRecordSignature (row ++ [(c, some w)]) =
      CSVLogger.createRecordSignature (row ++ [(c, some "")]) := by
  apply sig_congr_norm
  rw [List.map_append, List.map_append]
  congr 1
  have hw0 : pyStrip "" = "" := by decide
  simp only [List.map_cons, List.map_nil, normalizeValue, hw, hw0]

/-- Witness for C4 as amended, at a whitespace-only value. -/
theorem c4_amended_witness :
    pyStrip " " = "" ∧
    CSVLogger.createRecordSignature [("A", some "1"), ("B", some " ")] =
      CSVLogger.createRecordSignature [("A", some "1"), ("B", some "")] :=
  ⟨by decide, c4_amended [("A", some "1")] "B" " " (by decide)⟩

/-- Claim C10: the two duplicated signature implementations agree on every
row dict that binds neither Sync Timestamp nor Timestamp; both then exclude
exactly Export Timestamp and the remaining computation is identical. -/
theorem c10_duplicate_signatures_agree (row : PyRow)
    (h : ∀ p ∈ row, p.1 ≠ "Sync Timestamp" ∧ p.1 ≠ "Timestamp") :
    CSVLogger.createRecordSignature row = CSVSDK.createRecordSignature row := by
  simp only [CSVLogger.createRecordSignature, CSVSDK.createRecordSignature]
  congr 1
  congr 1
  apply List.filter_congr
  intro p hp
  have hmem : p ∈ row :=
    (isortBy_perm (fun p q => strLe p.1 q.1) row).mem_iff.mp hp
  rcases h p hmem with ⟨h1, h2⟩
  by_cases he : p.1 = "Export Timestamp"
  · simp [CSVLogger.timestampFields, h1, h2, he, bne]
  · simp [CSVLogger.timestampFields, h1, h2, he, bne]

/-- Witness for C10 at a concrete row without the logger-only timestamp
columns. -/
theorem c10_witness :
    (∀ p ∈ ([("Appointment ID", some "7"), ("Canceled", some "No")] : PyRow),
        p.1 ≠ "Sync Timestamp" ∧ p.1 ≠ "Timestamp") ∧
    CSVLogger.createRecordSignature
        [("Appointment ID", some "7"), ("Canceled", some "No")] =
      CSVSDK.createRecordSignature
        [("Appointment ID", some "7"), ("Canceled", some "No")] :=
  ⟨by decide, c10_duplicate_signatures_agree _ (by decide)⟩

/-- Claim C8: with keyword list [essentials] and fallback
advisor_1_on_1_session, the classifier maps the label
FREE - Startup Essentials - Jane Doe (pipe-separated) to the category file
startup_essentials.csv, and the bare label Jane Doe to the fallback
category file advisor_1_on_1_session.csv. -/
theorem c8_classifier_examples :
    getFormCsvFilename ⟨["essentials"], "advisor_1_on_1_session"⟩
        "FREE | Startup Essentials | Jane Doe" = "startup_essentials.csv" ∧
    getFormCsvFilename ⟨["essentials"], "advisor_1_on_1_session"⟩
        "Jane Doe" = "advisor_1_on_1_session.csv" := by
  constructor
  · decide
  · decide

/-! ### Inferencer analysis (the fix pass) -/

theorem enumFromN_map {α β : Type} (f : α → β) :
    ∀ (n : Nat) (l : List α),
    enumFromN n (l.map f) = (enumFromN n l).map (fun p => (p.1, f p.2))
  | _, [] => rfl
  | n, x :: t => by
    simp only [List.map_cons, enumFromN]
    rw [enumFromN_map f (n + 1) t]

theorem enumFromN_self {α : Type} :
    ∀ (n : Nat) (l : List α),
    enumFromN n (enumFromN n l) = (enumFromN n l).map (fun p => (p.1, p))
  | _, [] => rfl
  | n, x :: t => by
    simp only [enumFromN, List.map_cons]
    rw [enumFromN_self (n + 1) t]

theorem enumFromN_snd {α : Type} :
    ∀ (n : Nat) (l : List α), (enumFromN n l).map Prod.snd = l
  | _, [] => rfl
  | n, x :: t => by
    simp only [enumFromN, List.map_cons]
    rw [enumFromN_snd (n + 1) t]

theorem mem_foldl_append {α β : Type} (f : β → List α) (a : α) :
    ∀ (l : List β) (init : List α),
    (a ∈ l.foldl (fun acc x => acc ++ f x) init ↔
      a ∈ init ∨ ∃ x ∈ l, a ∈ f x)
  | [], init => by simp
  | b :: t, init => by
    rw [List.foldl_cons, mem_foldl_append f a t]
    simp only [List.mem_append, List.mem_cons]
    constructor
    · rintro (⟨h | h⟩ | ⟨x, hx, hax⟩)
      · exact Or.inl h
      · exact Or.inr ⟨b, Or.inl rfl, h⟩
      · exact Or.inr ⟨x, Or.inr hx, hax⟩
    · rintro (h | ⟨x, (rfl | hx), hax⟩)
      · exact Or.inl (Or.inl h)
      · exact Or.inl (Or.inr hax)
      · exact Or.inr ⟨x, hx, hax⟩

theorem fixUpd_get_ne (targets : List Nat) (p : Nat × Row) {k : String}
    (hk : k ≠ "Rescheduled") (d : String) :
    alistGetD (fixUpd targets p) k d = alistGetD p.2 k d := by
  unfold fixUpd
  by_cases h : targets.contains p.1
  · rw [if_pos h, alistGetD_upsert_ne _ _ _ (Ne.symm hk)]
  · rw [if_neg h]

theorem fixUpd_resc (targets : List Nat) (p : Nat × Row)
    (h : targets.contains p.1 = true) :
    alistGetD (fixUpd targets p) "Rescheduled" "No" = "Yes" := by
  unfold fixUpd
  rw [if_pos h, alistGetD_upsert_self]

theorem tsSortKey_fixUpd (targets : List Nat) (p : Nat × Row) :
    tsSortKey (fixUpd targets p) = tsSortKey p.2 := by
  unfold tsSortKey
  rw [fixUpd_get_ne targets p (by decide), fixUpd_get_ne targets p (by decide)]

/-- The rows after a fix pass, enumerated: same positions, pointwise
updated. -/
theorem enum_fixed_rows (T : List Nat) (rows : List Row) :
    enumFromN 0 ((enumFromN 0 rows).map (fixUpd T)) =
      (enumFromN 0 rows).map (fun p => (p.1, fixUpd T p)) := by
  rw [enumFromN_map, enumFromN_self, List.map_map]
  rfl

theorem map_snd_fixed_get {T : List Nat} {rows : List Row} {k : String}
    (hk : k ≠ "Rescheduled") (d : String) :
    ((enumFromN 0 rows).map (fixUpd T)).map (fun r => alistGetD r k d) =
      rows.map (fun r => alistGetD r k d) := by
  rw [List.map_map]
  have : ((enumFromN 0 rows).map (fun p => alistGetD (fixUpd T p) k d)) =
      (enumFromN 0 rows).map (fun p => alistGetD p.2 k d) := by
    apply List.map_congr_left
    intro p _
    exact fixUpd_get_ne T p hk d
  rw [show (fun r => alistGetD r k d) ∘ fixUpd T =
      fun p => alistGetD (fixUpd T p) k d from rfl, this]
  rw [show (fun p : Nat × Row => alistGetD p.2 k d) =
      (fun r => alistGetD r k d) ∘ Prod.snd from rfl, ← List.map_map,
    enumFromN_snd]

theorem rowIds_fixed (T : List Nat) (rows : List Row) :
    rowIds ((enumFromN 0 rows).map (fixUpd T)) = rowIds rows := by
  unfold rowIds
  rw [map_snd_fixed_get (by decide)]

theorem groupRows_fixed (T : List Nat) (rows : List Row) (i : String) :
    groupRows ((enumFromN 0 rows).map (fixUpd T)) i =
      (groupRows rows i).map (fun p => (p.1, fixUpd T p)) := by
  unfold groupRows
  rw [enum_fixed_rows, List.filter_map]
  congr 1
  apply List.filter_congr
  intro p _
  show (alistGetD (fixUpd T p) "Appointment ID" "" == i) = _
  rw [fixUpd_get_ne T p (by decide)]

theorem groupDatetimeCount_fixed (T : List Nat) (g : List (Nat × Row)) :
    groupDatetimeCount (g.map (fun p => (p.1, fixUpd T p))) =
      groupDatetimeCount g := by
  unfold groupDatetimeCount
  rw [List.map_map]
  have hmap : g.map ((fun p : Nat × Row =>
      alistGetD p.2 "Appointment DateTime" "") ∘ (fun p => (p.1, fixUpd T p)))
      = g.map (fun p => alistGetD p.2 "Appointment DateTime" "") := by
    apply List.map_congr_left
    intro p _
    simp only [Function.comp]
    exact fixUpd_get_ne T p (by decide) ""
  rw [hmap]

theorem mem_fixTargets {key : Row → String} {rows : List Row} {j : Nat} :
    j ∈ fixTargets key rows ↔
      ∃ i ∈ rowIds rows, j ∈ groupFixTargets key (groupRows rows i) := by
  unfold fixTargets
  rw [mem_foldl_append]
  simp

/-- After one fix pass, no group selects any further update position. -/
theorem groupFixTargets_fixed (rows : List Row) (i : String)
    (hi : i ∈ rowIds rows) :
    groupFixTargets tsSortKey
      (groupRows ((enumFromN 0 rows).map (fixUpd (fixTargets tsSortKey rows))) i)
      = [] := by
  set T := fixTargets tsSortKey rows with hT
  rw [groupRows_fixed]
  set g := groupRows rows i with hg
  unfold groupFixTargets
  rw [List.length_map, groupDatetimeCount_fixed]
  by_cases hlen : g.length ≤ 1
  · rw [if_pos hlen]
  · rw [if_neg hlen]
    by_cases hdt : groupDatetimeCount g ≤ 1
    · rw [if_pos hdt]
    · rw [if_neg hdt]
      have hsort : isortBy
          (fun a b : Nat × Row => strLe (tsSortKey a.2) (tsSortKey b.2))
          (g.map (fun p => (p.1, fixUpd T p))) =
          (isortBy (fun a b : Nat × Row => strLe (tsSortKey a.2) (tsSortKey b.2)) g).map
            (fun p => (p.1, fixUpd T p)) := by
        rw [isortBy_map (fun p => (p.1, fixUpd T p))
          (fun a b : Nat × Row => strLe (tsSortKey a.2) (tsSortKey b.2))
          (fun a b : Nat × Row => strLe (tsSortKey a.2) (tsSortKey b.2))
          (fun a b => by simp only [tsSortKey_fixUpd])]
      rw [hsort]
      cases hs : isortBy
          (fun a b : Nat × Row => strLe (tsSortKey a.2) (tsSortKey b.2)) g with
      | nil => rfl
      | cons first rest =>
        simp only [List.map_cons]
        have hfilter : (rest.map (fun p => (p.1, fixUpd T p))).filter (fun p =>
            alistGetD p.2 "Appointment DateTime" "" !=
              alistGetD (first.1, fixUpd T first).2 "Appointment DateTime" "" &&
            alistGetD p.2 "Rescheduled" "No" != "Yes") = [] := by
          rw [List.filter_map]
          rw [List.eq_nil_iff_forall_not_mem]
          intro p hp
          rcases List.mem_map.mp hp with ⟨q, hq, rfl⟩
          have hq2 := List.mem_filter.mp hq
          have hcond := hq2.2
          simp only [Function.comp] at hcond
          have hdtfix : alistGetD (fixUpd T q) "Appointment DateTime" "" =
              alistGetD q.2 "Appointment DateTime" "" :=
            fixUpd_get_ne T q (by decide) ""
          have hfirstdt : alistGetD (first.1, fixUpd T first).2
              "Appointment DateTime" "" =
              alistGetD first.2 "Appointment DateTime" "" :=
            fixUpd_get_ne T first (by decide) ""
          rw [Bool.and_eq_true, bne_iff_ne, bne_iff_ne] at hcond
          rcases hcond with ⟨hne, hyes⟩
          rw [hdtfix, hfirstdt] at hne
          by_cases hqyes : alistGetD q.2 "Rescheduled" "No" = "Yes"
          · -- the row was already flagged, so the update leaves Yes in place
            apply hyes
            unfold fixUpd
            by_cases hmem : T.contains q.1
            · rw [if_pos hmem, alistGetD_upsert_self]
            · rw [if_neg hmem]
              exact hqyes
          · -- the row was a target of the first pass, so it is now Yes
            have hqT : q.1 ∈ T := by
              rw [hT]
              apply mem_fixTargets.mpr
              refine ⟨i, hi, ?_⟩
              unfold groupFixTargets
              rw [← hg, if_neg hlen, if_neg hdt, hs]
              apply List.mem_map.mpr
              refine ⟨q, ?_, rfl⟩
              apply List.mem_filter.mpr
              exact ⟨hq2.1, by
                rw [Bool.and_eq_true, bne_iff_ne, bne_iff_ne]
                exact ⟨hne, hqyes⟩⟩
            apply hyes
            exact fixUpd_resc T q (by simpa using hqT)
        rw [hfilter]
        rfl

theorem fixTargets_fixed (rows : List Row) :
    fixTargets tsSortKey
      ((enumFromN 0 rows).map (fixUpd (fixTargets tsSortKey rows))) = [] := by
  rw [List.eq_nil_iff_forall_not_mem]
  intro j hj
  rcases mem_fixTargets.mp hj with ⟨i, hi, hmem⟩
  rw [rowIds_fixed] at hi
  rw [groupFixTargets_fixed rows i hi] at hmem
  cases hmem

/-- Claim C6: the Inferencer is idempotent.  Running
_fix_rescheduled_field_in_file a second time immediately after a first run
changes no flag: the updates-made flag of the second run is false and the
file is returned unchanged. -/
theorem c6_inferencer_idempotent (f : CSVFile) :
    fixRescheduledFieldInFile (fixRescheduledFieldInFile f).1 =
      ((fixRescheduledFieldInFile f).1, false) := by
  by_cases hh : f.header.contains "Rescheduled" = true
  case neg =>
    have h1 : fixRescheduledFieldInFile f = (f, false) := by
      unfold fixRescheduledFieldInFile
      rw [if_pos (by simpa using hh)]
    rw [h1]
    unfold fixRescheduledFieldInFile
    rw [if_pos (by simpa using hh)]
  case pos =>
    by_cases hr : f.rows.isEmpty = true
    · have h1 : fixRescheduledFieldInFile f = (f, false) := by
        unfold fixRescheduledFieldInFile
        rw [if_neg (by simpa using hh), if_pos hr]
      rw [h1]
      unfold fixRescheduledFieldInFile
      rw [if_neg (by simpa using hh), if_pos hr]
    · have h1 : fixRescheduledFieldInFile f =
          (⟨f.header, (fixRescheduledRows tsSortKey f.rows).1⟩,
            (fixRescheduledRows tsSortKey f.rows).2) := by
        unfold fixRescheduledFieldInFile
        rw [if_neg (by simpa using hh), if_neg (by simp [hr])]
      by_cases ht : (fixTargets tsSortKey f.rows).isEmpty = true
      · have h2 : fixRescheduledRows tsSortKey f.rows = (f.rows, false) := by
          unfold fixRescheduledRows
          rw [if_pos ht]
        rw [h1, h2]
        unfold fixRescheduledFieldInFile
        rw [if_neg (by simpa using hh), if_neg hr, h2]
      · have h2 : fixRescheduledRows tsSortKey f.rows =
            ((enumFromN 0 f.rows).map (fixUpd (fixTargets tsSortKey f.rows)),
              true) := by
          unfold fixRescheduledRows
          rw [if_neg ht]
        have hr2 : ((enumFromN 0 f.rows).map
            (fixUpd (fixTargets tsSortKey f.rows))).isEmpty = false := by
          cases hrows : f.rows with
          | nil => rw [hrows] at hr; simp at hr
          | cons a t => rfl
        have h3 : fixRescheduledRows tsSortKey
            ((enumFromN 0 f.rows).map (fixUpd (fixTargets tsSortKey f.rows))) =
            ((enumFromN 0 f.rows).map (fixUpd (fixTargets tsSortKey f.rows)),
              false) := by
          unfold fixRescheduledRows
          rw [fixTargets_fixed f.rows]
          rfl
        rw [h1, h2]
        unfold fixRescheduledFieldInFile
        rw [if_neg (by simpa using hh), if_neg (by rw [hr2]; simp), h3]

/-- A row over the base headers plus the ingestion timestamp column, as the
engine lays it out on a fresh file for a record without extra form
columns. -/
def c5Row (aptId dt canc resc syncTs : String) : Row :=
  [("Timestamp", ""), ("Appointment ID", aptId), ("Client Name", ""),
   ("Email", ""), ("Phone", ""), ("Appointment DateTime", dt),
   ("Canceled", canc), ("Rescheduled", resc), ("Sync Timestamp", syncTs)]

/-- Claim C5: for a File holding exactly the two rows id seven at time T1
(written first) and id seven at time T2 (written second), with distinct
non-empty times and ingestion timestamps in write order, the Inferencer pass
leaves the first row's Derived Flag at No and sets the second row's to
Yes. -/
theorem c5_reschedule_inference (T1 T2 s1 s2 : String)
    (hne : T1 ≠ T2) (h1 : T1 ≠ "") (h2 : T2 ≠ "") (hord : strLe s1 s2 = true) :
    ((fixRescheduledFieldInFile
      ⟨FORM_CSV_BASE_HEADERS ++ ["Sync Timestamp"],
       [c5Row "7" T1 "No" "No" s1, c5Row "7" T2 "No" "No" s2]⟩).1.rows.map
      (fun r => alistGetD r "Rescheduled" "No")) = ["No", "Yes"] := by
  have e1 : (T1 != "") = true := bne_iff_ne.mpr h1
  have e2 : (T2 != "") = true := bne_iff_ne.mpr h2
  have e3 : (T2 != T1) = true := bne_iff_ne.mpr (Ne.symm hne)
  simp [fixRescheduledFieldInFile, fixRescheduledRows, fixTargets, rowIds,
    groupRows, groupFixTargets, groupDatetimeCount, enumFromN, isortBy,
    insertLE, tsSortKey, fixUpd, c5Row, alistGetD, alistGet?, alistUpsert,
    alistHas, FORM_CSV_BASE_HEADERS, List.dedup, hord, e1, e2, e3, hne,
    List.find?, List.filter, List.foldl]

/-- Witness for C5 at concrete times and timestamps. -/
theorem c5_witness :
    ("X" : String) ≠ "Y" ∧ ("X" : String) ≠ "" ∧ ("Y" : String) ≠ "" ∧
    strLe "2025-01-01 10:00:00" "2025-01-01 10:00:05" = true ∧
    ((fixRescheduledFieldInFile
      ⟨FORM_CSV_BASE_HEADERS ++ ["Sync Timestamp"],
       [c5Row "7" "X" "No" "No" "2025-01-01 10:00:00",
        c5Row "7" "Y" "No" "No" "2025-01-01 10:00:05"]⟩).1.rows.map
      (fun r => alistGetD r "Rescheduled" "No")) = ["No", "Yes"] :=
  ⟨by decide, by decide, by decide, by decide,
   c5_reschedule_inference "X" "Y" "2025-01-01 10:00:00" "2025-01-01 10:00:05"
     (by decide) (by decide) (by decide) (by decide)⟩

/-! ### Schema merger analysis -/

/-- The new columns the header merge appends: the record's columns not in
the existing header, in encounter order, without repeats. -/
def encounterNew (existing : List String) (fd : Row) : List String :=
  fd.foldl (fun ns p =>
    if existing.contains p.1 || ns.contains p.1 then ns else ns ++ [p.1]) []

theorem contains_append_eq (a : String) : ∀ l₁ l₂ : List String,
    (l₁ ++ l₂).contains a = (l₁.contains a || l₂.contains a)
  | [], _ => rfl
  | b :: t, l₂ => by
    by_cases hb : (a == b) = true
    · simp [List.contains_cons, hb, Bool.or_assoc]
    · simp only [List.cons_append, List.contains_cons, hb, Bool.false_or]
      exact contains_append_eq a t l₂

theorem mergeFold_decomp : ∀ (fd : Row) (base ns : List String),
    fd.foldl (fun hs p => if hs.contains p.1 then hs else hs ++ [p.1])
      (base ++ ns) =
    base ++ fd.foldl (fun ms p =>
      if base.contains p.1 || ms.contains p.1 then ms else ms ++ [p.1]) ns
  | [], _, _ => rfl
  | p :: t, base, ns => by
    simp only [List.foldl_cons, contains_append_eq]
    by_cases hc : (base.contains p.1 || ns.contains p.1) = true
    · rw [if_pos hc, if_pos hc]
      exact mergeFold_decomp t base ns
    · rw [if_neg hc, if_neg hc, List.append_assoc]
      exact mergeFold_decomp t base (ns ++ [p.1])

theorem mergedHeaders_decomp (existing : List String) (fd : Row)
    (h : existing ≠ []) :
    mergedHeaders existing fd = existing ++ encounterNew existing fd := by
  unfold mergedHeaders encounterNew
  rw [if_neg (by simpa using h)]
  have := mergeFold_decomp fd existing []
  simpa using this

theorem mem_encounterFold {x : String} {base : List String} :
    ∀ {fd : Row} {ns : List String},
    x ∈ fd.foldl (fun ms p =>
      if base.contains p.1 || ms.contains p.1 then ms else ms ++ [p.1]) ns →
    x ∈ ns ∨ (x ∈ fd.map Prod.fst ∧ base.contains x = false)
  | [], ns, h => Or.inl h
  | p :: t, ns, h => by
    rw [List.foldl_cons] at h
    by_cases hc : (base.contains p.1 || ns.contains p.1) = true
    · rw [if_pos hc] at h
      rcases mem_encounterFold h with h1 | h1
      · exact Or.inl h1
      · exact Or.inr ⟨List.mem_cons_of_mem _ (by simpa using h1.1), h1.2⟩
    · rw [if_neg hc] at h
      rcases mem_encounterFold h with h1 | h1
      · rcases List.mem_append.mp h1 with h2 | h2
        · exact Or.inl h2
        · rcases List.mem_singleton.mp h2 with rfl
          refine Or.inr ⟨List.mem_cons_self _ _, ?_⟩
          have hcf : (base.contains p.1 || ns.contains p.1) = false := by
            simpa using hc
          exact (Bool.or_eq_false_iff.mp hcf).1
      · exact Or.inr ⟨List.mem_cons_of_mem _ (by simpa using h1.1), h1.2⟩

theorem mem_mergeFold {k : String} :
    ∀ {fd : Row} {acc : List String},
    (k ∈ acc ∨ k ∈ fd.map Prod.fst) →
    k ∈ fd.foldl (fun hs p => if hs.contains p.1 then hs else hs ++ [p.1]) acc
  | [], acc, h => by
    rcases h with h | h
    · exact h
    · cases h
  | p :: t, acc, h => by
    rw [List.foldl_cons]
    by_cases hc : acc.contains p.1 = true
    · rw [if_pos hc]
      rcases h with h | h
      · exact mem_mergeFold (Or.inl h)
      · rw [List.map_cons] at h
        rcases List.mem_cons.mp h with rfl | h2
        · exact mem_mergeFold (Or.inl (by simpa using hc))
        · exact mem_mergeFold (Or.inr h2)
    · rw [if_neg hc]
      rcases h with h | h
      · exact mem_mergeFold (Or.inl (List.mem_append.mpr (Or.inl h)))
      · rw [List.map_cons] at h
        rcases List.mem_cons.mp h with rfl | h2
        · exact mem_mergeFold (Or.inl (List.mem_append.mpr (Or.inr
            (List.mem_singleton.mpr rfl))))
        · exact mem_mergeFold (Or.inr h2)

theorem mem_mergedHeaders_of_key {k : String} {existing : List String}
    {fd : Row} (h : k ∈ fd.map Prod.fst) : k ∈ mergedHeaders existing fd := by
  unfold mergedHeaders
  by_cases he : existing.isEmpty
  · rw [if_pos he]
    exact mem_mergeFold (Or.inr h)
  · rw [if_neg he]
    exact mem_mergeFold (Or.inr h)

theorem storedRow_get (hs : List String) (fd : Row) (c : String) :
    alistGet? (storedRow hs fd) c =
      if c ∈ hs then some (alistGetD fd c "") else none :=
  alistGet?_keyFn (fun h => alistGetD fd h "") c hs

theorem alistGet?_eq_none_of_not_key {α : Type} {l : List (String × α)}
    {c : String} (h : c ∉ l.map Prod.fst) : alistGet? l c = none := by
  apply alistGet?_eq_none_iff.mpr
  intro p hp hc
  exact h (List.mem_map.mpr ⟨p, hp, hc⟩)

/-- Claim C7: when an incoming Record brings at least one column not in the
File's existing header (and its signature is not already present, so the
write is not skipped), _write_form_csv takes the full-rewrite branch; the
merged header is the existing header in its order followed by the new
columns in encounter order; the rewritten file holds every prior row padded
to the merged header (original value at every existing column, empty string
at every column it did not have) followed by the new row. -/
theorem c7_header_widening (f : CSVFile) (fd : Row)
    (hhead : f.header ≠ [])
    (hwf : ∀ r ∈ f.rows, r.map Prod.fst = f.header)
    (hnosig : ∀ r ∈ f.rows, rowSignature r ≠ rowSignature fd)
    (hnew : ∃ k ∈ fd.map Prod.fst, k ∉ f.header) :
    (writeFormCsv (some f) fd).2 = WriteAction.rewritten ∧
    (writeFormCsv (some f) fd).1 =
      dedupeCsvFile (fixRescheduledFieldInFile
        (rewriteCsvWithNewHeaders f (mergedHeaders f.header fd) fd)).1 ∧
    mergedHeaders f.header fd = f.header ++ encounterNew f.header fd ∧
    (∀ n ∈ encounterNew f.header fd, n ∉ f.header) ∧
    (rewriteCsvWithNewHeaders f (mergedHeaders f.header fd) fd).rows =
      f.rows.map (storedRow (mergedHeaders f.header fd)) ++
        [storedRow (mergedHeaders f.header fd) fd] ∧
    (∀ r ∈ f.rows,
      (∀ c ∈ f.header,
        alistGetD (storedRow (mergedHeaders f.header fd) r) c "" =
          alistGetD r c "") ∧
      (∀ c, c ∉ f.header →
        alistGetD (storedRow (mergedHeaders f.header fd) r) c "" = "")) := by
  rcases hnew with ⟨k, hk, hknot⟩
  have hbranch : (!f.header.isEmpty &&
      !sameHeaderSet (mergedHeaders f.header fd) f.header) = true := by
    rw [Bool.and_eq_true]
    constructor
    · cases hfh : f.header with
      | nil => exact absurd hfh hhead
      | cons a t => rfl
    · have : sameHeaderSet (mergedHeaders f.header fd) f.header = false := by
        unfold sameHeaderSet
        rw [Bool.and_eq_false_iff]
        left
        rw [List.all_eq_false]
        refine ⟨k, mem_mergedHeaders_of_key hk, ?_⟩
        simp [hknot]
      rw [this]
      rfl
  have hskip : (f.rows.any
      (fun r => rowSignature r == rowSignature fd)) = false := by
    rw [List.any_eq_false]
    intro r hr
    simpa using hnosig r hr
  have hact : writeFormCsv (some f) fd =
      (dedupeCsvFile (fixRescheduledFieldInFile
        (rewriteCsvWithNewHeaders f (mergedHeaders f.header fd) fd)).1,
       WriteAction.rewritten) := by
    simp only [writeFormCsv]
    rw [if_neg (by rw [hskip]; simp), if_pos hbranch]
  refine ⟨by rw [hact], by rw [hact], mergedHeaders_decomp f.header fd hhead,
    ?_, rfl, ?_⟩
  · intro n hn hmem
    rcases @mem_encounterFold n f.header _ _ hn with h | h
    · cases h
    · rw [← Bool.not_eq_true] at h
      exact h.2 (by simpa using hmem)
  · intro r hr
    constructor
    · intro c hc
      have hcm : c ∈ mergedHeaders f.header fd := by
        unfold mergedHeaders
        rw [if_neg (by simpa using hhead)]
        exact mem_mergeFold (Or.inl hc)
      unfold alistGetD
      rw [storedRow_get, if_pos hcm]
      rfl
    · intro c hc
      unfold alistGetD
      rw [storedRow_get]
      by_cases hcm : c ∈ mergedHeaders f.header fd
      · rw [if_pos hcm]
        have : alistGet? r c = none :=
          alistGet?_eq_none_of_not_key (by rw [hwf r hr]; exact hc)
        unfold alistGetD
        rw [this]
        rfl
      · rw [if_neg hcm]
        rfl

/-- Witness for C7: a one-column file widened by a record bringing a new
column. -/
theorem c7_witness :
    ((⟨["A"], [[("A", "1")]]⟩ : CSVFile).header ≠ [] ∧
     (∀ r ∈ (⟨["A"], [[("A", "1")]]⟩ : CSVFile).rows,
        r.map Prod.fst = ["A"]) ∧
     (∀ r ∈ (⟨["A"], [[("A", "1")]]⟩ : CSVFile).rows,
        rowSignature r ≠ rowSignature [("A", "1"), ("B", "2")]) ∧
     (∃ k ∈ ([("A", "1"), ("B", "2")] : Row).map Prod.fst, k ∉ ["A"])) ∧
    (writeFormCsv (some ⟨["A"], [[("A", "1")]]⟩) [("A", "1"), ("B", "2")]).2 =
      WriteAction.rewritten :=
  ⟨⟨by decide, by decide, by decide, by decide⟩,
   (c7_header_widening ⟨["A"], [[("A", "1")]]⟩ [("A", "1"), ("B", "2")]
     (by decide) (by decide) (by decide) (by decide)).1⟩

/-! ### Form-data extraction analysis -/

theorem alistHas_iff_mem_keys {α : Type} {l : List (String × α)} {k : String} :
    alistHas l k = true ↔ k ∈ l.map Prod.fst := by
  unfold alistHas
  rw [List.any_eq_true]
  constructor
  · rintro ⟨p, hp, hk⟩
    exact List.mem_map.mpr ⟨p, hp, by simpa using hk⟩
  · intro h
    rcases List.mem_map.mp h with ⟨p, hp, hk⟩
    exact ⟨p, hp, by simpa using hk⟩

theorem alistUpsert_keys {α : Type} (l : List (String × α)) (k : String)
    (v : α) :
    (alistUpsert l k v).map Prod.fst =
      if k ∈ l.map Prod.fst then l.map Prod.fst else l.map Prod.fst ++ [k] := by
  by_cases h : k ∈ l.map Prod.fst
  · rw [if_pos h]
    exact alistUpsert_keys_of_has v (alistHas_iff_mem_keys.mpr h)
  · rw [if_neg h]
    unfold alistUpsert
    rw [if_neg (fun hh => h (alistHas_iff_mem_keys.mp hh))]
    simp

theorem alistUpsert_get {α : Type} (l : List (String × α)) (k' k : String)
    (v : α) :
    alistGet? (alistUpsert l k' v) k =
      if k' = k then some v else alistGet? l k := by
  by_cases h : k' = k
  · rw [if_pos h, h, alistUpsert_get_self]
  · rw [if_neg h, alistUpsert_get_ne l v h]

theorem fieldStep_get_ne {l : Row} {field : FormField} {k : String}
    (h : pyStrip field.name ≠ k) :
    alistGet? (fieldStep l field) k = alistGet? l k := by
  unfold fieldStep
  by_cases hn : (pyStrip field.name != "") = true
  · rw [if_pos hn, alistUpsert_get, if_neg h]
  · rw [if_neg hn]

theorem applyForm_get_of_ne {form : List FormField} {k : String}
    (h : ∀ field ∈ form, pyStrip field.name ≠ k) (l : Row) :
    alistGet? (applyForm l form) k = alistGet? l k := by
  unfold applyForm
  induction form generalizing l with
  | nil => rfl
  | cons field ft ihf =>
    rw [List.foldl_cons, ihf (fun g hg => h g (List.mem_cons_of_mem _ hg))]
    exact fieldStep_get_ne (h field (List.mem_cons_self _ _))

theorem applyForms_get_of_ne {forms : List (List FormField)} {k : String}
    (h : ∀ form ∈ forms, ∀ field ∈ form, pyStrip field.name ≠ k) (l : Row) :
    alistGet? (applyForms l forms) k = alistGet? l k := by
  induction forms generalizing l with
  | nil => rfl
  | cons form t ih =>
    show alistGet? (applyForms (applyForm l form) t) k = alistGet? l k
    rw [ih (fun f hf => h f (List.mem_cons_of_mem _ hf))]
    exact applyForm_get_of_ne (h form (List.mem_cons_self _ _)) l

theorem fieldStep_keys_mono {l : Row} {k : String} (field : FormField)
    (h : k ∈ l.map Prod.fst) : k ∈ (fieldStep l field).map Prod.fst := by
  unfold fieldStep
  by_cases hn : (pyStrip field.name != "") = true
  · rw [if_pos hn, alistUpsert_keys]
    by_cases hm : pyStrip field.name ∈ l.map Prod.fst
    · rw [if_pos hm]
      exact h
    · rw [if_neg hm]
      exact List.mem_append.mpr (Or.inl h)
  · rw [if_neg hn]
    exact h

theorem applyForms_keys_mono {forms : List (List FormField)} {k : String}
    (l : Row) (h : k ∈ l.map Prod.fst) :
    k ∈ (applyForms l forms).map Prod.fst := by
  induction forms generalizing l with
  | nil => exact h
  | cons form t ih =>
    apply ih
    unfold applyForm
    induction form generalizing l with
    | nil => exact h
    | cons field ft ihf =>
      exact ihf _ (fieldStep_keys_mono field h)

theorem mergeFold_nodup : ∀ {fd : Row} {acc : List String}, acc.Nodup →
    (fd.foldl (fun hs p => if hs.contains p.1 then hs else hs ++ [p.1])
      acc).Nodup
  | [], _, h => h
  | p :: t, acc, h => by
    rw [List.foldl_cons]
    by_cases hc : acc.contains p.1 = true
    · rw [if_pos hc]
      exact mergeFold_nodup h
    · rw [if_neg hc]
      apply mergeFold_nodup
      rw [← List.concat_eq_append]
      exact h.concat (fun hm => hc (by simpa using hm))

theorem mergedHeaders_nodup (existing : List String) (fd : Row)
    (h : existing.Nodup) : (mergedHeaders existing fd).Nodup := by
  unfold mergedHeaders
  by_cases he : existing.isEmpty
  · rw [if_pos he]
    exact mergeFold_nodup (by decide)
  · rw [if_neg he]
    exact mergeFold_nodup h

theorem storedRow_keys (hs : List String) (fd : Row) :
    (storedRow hs fd).map Prod.fst = hs := by
  unfold storedRow
  rw [List.map_map]
  have hcomp : (Prod.fst ∘ fun h : String => (h, alistGetD fd h "")) = id := rfl
  rw [hcomp, List.map_id]

theorem strRow_get (r : Row) (k : String) :
    alistGet? (r.map (fun p => (p.1, some p.2))) k =
      (alistGet? r k).map (fun v => some v) := by
  induction r with
  | nil => rfl
  | cons p t ih =>
    by_cases hk : p.1 = k
    · rw [List.map_cons, alistGet?_cons, alistGet?_cons]
      simp [hk]
    · rw [List.map_cons, alistGet?_cons, alistGet?_cons, if_neg hk, if_neg hk,
        ih]

/-- Unfolding of log_form_data when the record has form data. -/
theorem logFormData_some {cfg : LoggerCfg} {fmt : String → String} {dir : Dir}
    {s : String} {rec : AcuityRecord} {fd : Row}
    (h : extractFormData dir fmt s rec = some fd) :
    logFormData cfg fmt dir s rec =
      (alistUpsert dir (getFormCsvFilename cfg rec.appointment_type)
        (writeFormCsv
          (alistGet? dir (getFormCsvFilename cfg rec.appointment_type)) fd).1,
       some (writeFormCsv
          (alistGet? dir (getFormCsvFilename cfg rec.appointment_type)) fd).2) := by
  unfold logFormData
  rw [h]

structure Faults where
  checkRead : Bool
  dupRead : Bool
  headerRead : Bool
  appendWrite : Bool
  rewriteRead : Bool
  rewriteWrite : Bool
  fixIO : Bool
  dedupeIO : Bool
  sdkRead : Bool
deriving Repr

/-- A fallible file-system primitive: raises when its fault flag is set. -/
def ioGuard {α : Type} (fail : Bool) (a : α) : Except String α :=
  if fail then Except.error "io error" else Except.ok a

/-- A try/except block around one operation, with the fallback value its
except branch establishes. -/
def tryOr {α : Type} (x : Except String α) (fallback : α) : α :=
  match x with
  | Except.ok v => v
  | Except.error _ => fallback

/-- _check_if_rescheduled under faults: every read sits inside try/except
blocks whose handlers continue or return False, so a read failure yields
False. -/
def checkIfRescheduledE (ft : Faults) (dir : Dir)
    (aptId dt : String) (c : Bool) : Bool :=
  tryOr (ioGuard ft.checkRead (checkIfRescheduled dir aptId dt c)) false

/-- _extract_form_data under faults (pure except for the check). -/
def extractFormDataE (ft : Faults) (dir : Dir) (fmt : String → String)
    (syncTs : String) (rec : AcuityRecord) : Option Row :=
  if rec.forms.isEmpty then none
  else
    some (applyForms
      [("Sync Timestamp", syncTs),
       ("Appointment ID", rec.appointment_id),
       ("Client Name", rec.client_name),
       ("Email", rec.email),
       ("Phone", rec.phone),
       ("Appointment DateTime", fmt rec.datetime),
       ("Canceled", boolYesNo rec.canceled),
       ("Rescheduled", boolYesNo
         (checkIfRescheduledE ft dir rec.appointment_id (fmt rec.datetime)
           rec.canceled))] rec.forms)

/-- _fix_rescheduled_field_in_file under faults: its whole body sits inside
one try/except-pass, so any failure leaves the file untouched. -/
def fixRescheduledFieldInFileE (ft : Faults) (f : CSVFile) : CSVFile :=
  tryOr (ioGuard ft.fixIO (fixRescheduledFieldInFile f).1) f

/-- _dedupe_csv_file under faults: same try/except-pass pattern. -/
def dedupeCsvFileE (ft : Faults) (f : CSVFile) : CSVFile :=
  tryOr (ioGuard ft.dedupeIO (dedupeCsvFile f)) f

/-- CSVLogger._write_form_csv under faults.  The duplicate-check read
(except: pass, so the check is skipped), the header read (except: empty
headers — an unreadable file is treated as headerless and the base headers
are used), the append write and the rewrite's read and write (except: log a
warning, leaving the file as it was) are each inside their own try; the
inferencer and the dedup sweep always run afterwards.  Every branch
returns normally: no exception can escape this function. -/
def writeFormCsvE (ft : Faults) (file : Option CSVFile) (formData : Row) :
    Except String (Option CSVFile) :=
  match file with
  | some f =>
    if tryOr (ioGuard ft.dupRead
        (f.rows.any (fun r => rowSignature r == rowSignature formData)))
        false then
      Except.ok (some f)
    else
      let existingHeaders := tryOr (ioGuard ft.headerRead f.header) []
      let allHeaders := mergedHeaders existingHeaders formData
      let f1 :=
        if !existingHeaders.isEmpty &&
            !sameHeaderSet allHeaders existingHeaders then
          tryOr (ioGuard ft.rewriteWrite
            (rewriteCsvWithNewHeaders
              ⟨f.header, tryOr (ioGuard ft.rewriteRead f.rows) []⟩
              allHeaders formData)) f
        else
          tryOr (ioGuard ft.appendWrite
            (⟨allHeaders, f.rows ++ [storedRow allHeaders formData]⟩ :
              CSVFile)) f
      Except.ok (some (dedupeCsvFileE ft (fixRescheduledFieldInFileE ft f1)))
  | none =>
    let allHeaders := mergedHeaders [] formData
    match ioGuard ft.appendWrite
        (⟨allHeaders, [storedRow allHeaders formData]⟩ : CSVFile) with
    | Except.error _ => Except.ok none
    | Except.ok f1 =>
      Except.ok (some (dedupeCsvFileE ft (fixRescheduledFieldInFileE ft f1)))

/-- CSVLogger.log_form_data under faults: its whole body sits inside one
try/except that logs a warning and returns, so even a raising inner call
would leave the directory untouched and return normally. -/
def logFormDataE (ft : Faults) (cfg : LoggerCfg) (fmt : String → String)
    (dir : Dir) (syncTs : String) (rec : AcuityRecord) : Except String Dir :=
  match
    (match extractFormDataE ft dir fmt syncTs rec with
     | none => Except.ok dir
     | some fd =>
       let fname := getFormCsvFilename cfg rec.appointment_type
       match writeFormCsvE ft (alistGet? dir fname) fd with
       | Except.error e => Except.error e
       | Except.ok none => Except.ok dir
       | Except.ok (some f') => Except.ok (alistUpsert dir fname f')) with
  | Except.ok d => Except.ok d
  | Except.error _ => Except.ok dir

/-! ### String facts for the flag invariant -/

theorem str_data_inj {s t : String} (h : s.data = t.data) : s = t := by
  cases s
  cases t
  exact congrArg String.mk h

theorem listIsPfx_self_append : ∀ (l m : List Char), listIsPfx l (l ++ m) = true
  | [], _ => rfl
  | a :: t, m => by
    show (decide (a = a) && listIsPfx t (t ++ m)) = true
    rw [decide_eq_true rfl, Bool.true_and]
    exact listIsPfx_self_append t m

theorem strEnds_append (s t : String) : strEnds (s ++ t) t = true := by
  unfold strEnds
  rw [String.data_append, List.reverse_append]
  exact listIsPfx_self_append _ _

theorem fname_ends_csv (cfg : LoggerCfg) (t : String) :
    strEnds (getFormCsvFilename cfg t) ".csv" = true := by
  unfold getFormCsvFilename
  exact strEnds_append _ _

/-- Splitting a character list at its first pipe is unambiguous when the
part before the pipe is pipe-free. -/
theorem pipe_split : ∀ {a b t u : List Char}, '|' ∉ a → '|' ∉ b →
    a ++ '|' :: t = b ++ '|' :: u → a = b ∧ t = u
  | [], [], _, _, _, _, h => by simpa using h
  | [], c :: b', t, u, _, hb, h => by
    rw [List.nil_append, List.cons_append] at h
    have : c = '|' := ((List.cons.injEq _ _ _ _).mp h).1.symm
    exact absurd (this ▸ List.mem_cons_self c b') hb
  | c :: a', [], t, u, ha, _, h => by
    rw [List.nil_append, List.cons_append] at h
    have : c = '|' := ((List.cons.injEq _ _ _ _).mp h).1
    exact absurd (this ▸ List.mem_cons_self c a') ha
  | c :: a', d :: b', t, u, ha, hb, h => by
    rw [List.cons_append, List.cons_append] at h
    have h1 := (List.cons.injEq _ _ _ _).mp h
    have h2 := pipe_split (fun hm => ha (List.mem_cons_of_mem _ hm))
      (fun hm => hb (List.mem_cons_of_mem _ hm)) h1.2
    exact ⟨by rw [h1.1, h2.1], h2.2⟩

theorem pyJoin_cons_cons (s x : String) (t : List String) :
    pyJoin "|" (s :: x :: t) = s ++ "|" ++ pyJoin "|" (x :: t) := rfl

/-- The pipe-join of pipe-free parts determines the parts (same count). -/
theorem pyJoin_pipe_inj : ∀ {xs ys : List String}, xs.length = ys.length →
    (∀ x ∈ xs, '|' ∉ x.data) → (∀ y ∈ ys, '|' ∉ y.data) →
    pyJoin "|" xs = pyJoin "|" ys → xs = ys
  | [], [], _, _, _, _ => rfl
  | [x], [y], _, _, _, h => by rw [show x = y from h]
  | [], _ :: _, hlen, _, _, _ => by cases hlen
  | _ :: _, [], hlen, _, _, _ => by cases hlen
  | [x], _ :: _ :: _, hlen, _, _, _ => by cases hlen
  | _ :: _ :: _, [y], hlen, _, _, _ => by cases hlen
  | x :: x2 :: xt, y :: y2 :: yt, hlen, hx, hy, h => by
    rw [pyJoin_cons_cons, pyJoin_cons_cons] at h
    have hdata := congrArg String.data h
    rw [String.data_append, String.data_append, String.data_append,
      String.data_append] at hdata
    have hsep : ("|" : String).data = ['|'] := rfl
    rw [hsep] at hdata
    simp only [List.append_assoc, List.singleton_append] at hdata
    have hsp := pipe_split (hx x (List.mem_cons_self _ _))
      (hy y (List.mem_cons_self _ _)) hdata
    have hxy : x = y := str_data_inj hsp.1
    have hrest : pyJoin "|" (x2 :: xt) = pyJoin "|" (y2 :: yt) :=
      str_data_inj hsp.2
    have hlen' : (x2 :: xt).length = (y2 :: yt).length := by
      simpa using hlen
    have := pyJoin_pipe_inj hlen'
      (fun a ha => hx a (List.mem_cons_of_mem _ ha))
      (fun a ha => hy a (List.mem_cons_of_mem _ ha)) hrest
    rw [hxy, this]

theorem pyStrip_data_sub {s : String} {c : Char} (h : c ∈ (pyStrip s).data) :
    c ∈ s.data := by
  unfold pyStrip at h
  have h1 : c ∈ (s.data.dropWhile isWs).reverse.dropWhile isWs := by
    simpa using List.mem_reverse.mp h
  have h2 : c ∈ (s.data.dropWhile isWs).reverse :=
    (List.dropWhile_sublist _).mem h1
  exact (List.dropWhile_sublist _).mem (List.mem_reverse.mp h2)

theorem alistGetD_mem_vals (l : Row) (k d : String) :
    alistGetD l k d ∈ l.map Prod.snd ∨ alistGetD l k d = d := by
  unfold alistGetD
  cases h : alistGet? l k with
  | none => exact Or.inr rfl
  | some v =>
    exact Or.inl (List.mem_map.mpr ⟨_, alistGet?_mem h, rfl⟩)

theorem mem_alistUpsert {α : Type} {l : List (String × α)} {k : String}
    {v : α} {p : String × α} (h : p ∈ alistUpsert l k v) :
    p ∈ l ∨ p = (k, v) := by
  unfold alistUpsert at h
  by_cases hh : alistHas l k = true
  · rw [if_pos hh] at h
    rcases List.mem_map.mp h with ⟨q, hq, hqe⟩
    by_cases hqk : (q.1 == k) = true
    · rw [if_pos hqk] at hqe
      exact Or.inr hqe.symm
    · rw [if_neg hqk] at hqe
      exact Or.inl (hqe ▸ hq)
  · rw [if_neg hh] at h
    rcases List.mem_append.mp h with h1 | h1
    · exact Or.inl h1
    · exact Or.inr (List.mem_singleton.mp h1)

theorem mem_fieldStep {l : Row} {field : FormField} {p : String × String}
    (h : p ∈ fieldStep l field) :
    p ∈ l ∨ (p.1 = pyStrip field.name ∧ p.2 = field.value) := by
  unfold fieldStep at h
  by_cases hn : (pyStrip field.name != "") = true
  · rw [if_pos hn] at h
    rcases mem_alistUpsert h with h1 | h1
    · exact Or.inl h1
    · exact Or.inr ⟨by rw [h1], by rw [h1]⟩
  · rw [if_neg hn] at h
    exact Or.inl h

theorem mem_applyForm {l : Row} {form : List FormField} {p : String × String}
    (h : p ∈ applyForm l form) :
    p ∈ l ∨ ∃ field ∈ form, p.1 = pyStrip field.name ∧ p.2 = field.value := by
  induction form generalizing l with
  | nil => exact Or.inl h
  | cons field ft ih =>
    rcases ih (l := fieldStep l field) h with h1 | h1
    · rcases mem_fieldStep h1 with h2 | h2
      · exact Or.inl h2
      · exact Or.inr ⟨field, List.mem_cons_self _ _, h2⟩
    · rcases h1 with ⟨g, hg, hge⟩
      exact Or.inr ⟨g, List.mem_cons_of_mem _ hg, hge⟩

theorem mem_applyForms {l : Row} {forms : List (List FormField)}
    {p : String × String} (h : p ∈ applyForms l forms) :
    p ∈ l ∨ ∃ form ∈ forms, ∃ field ∈ form,
      p.1 = pyStrip field.name ∧ p.2 = field.value := by
  induction forms generalizing l with
  | nil => exact Or.inl h
  | cons form t ih =>
    rcases ih (l := applyForm l form) h with h1 | h1
    · rcases mem_applyForm h1 with h2 | h2
      · exact Or.inl h2
      · rcases h2 with ⟨g, hg, hge⟩
        exact Or.inr ⟨form, List.mem_cons_self _ _, g, hg, hge⟩
    · rcases h1 with ⟨fo, hfo, g, hg, hge⟩
      exact Or.inr ⟨fo, List.mem_cons_of_mem _ hfo, g, hg, hge⟩

theorem entry_pipe_free {k w : String} (hk : '|' ∉ k.data)
    (hw : '|' ∉ w.data) : '|' ∉ (k ++ ":" ++ w).data := by
  rw [String.data_append, String.data_append]
  intro hm
  rcases List.mem_append.mp hm with h1 | h1
  · rcases List.mem_append.mp h1 with h2 | h2
    · exact hk h2
    · exact absurd h2 (by decide)
  · exact hw h1

theorem entry_cancel {k w w' : String}
    (h : k ++ ":" ++ w = k ++ ":" ++ w') : w = w' := by
  have hd := congrArg String.data h
  rw [String.data_append, String.data_append, String.data_append,
    String.data_append] at hd
  exact str_data_inj (List.append_cancel_left hd)

theorem pyValue_strRow (r : Row) (k : String) :
    pyValue (r.map (fun p => (p.1, some p.2))) k = alistGet? r k := by
  unfold pyValue
  rw [strRow_get]
  cases alistGet? r k <;> rfl

theorem map_eq_pointwise {α β : Type} {f g : α → β} :
    ∀ {l : List α}, l.map f = l.map g → ∀ a ∈ l, f a = g a
  | [], _, a, ha => absurd ha (List.not_mem_nil a)
  | x :: t, h, a, ha => by
    rw [List.map_cons, List.map_cons] at h
    have h1 := (List.cons.injEq _ _ _ _).mp h
    rcases List.mem_cons.mp ha with rfl | ha2
    · exact h1.1
    · exact map_eq_pointwise h1.2 a ha2

/-- Signature injectivity on one file's rows: two rows binding the same
duplicate-free header, with pipe-free columns and values, that have equal
signatures agree (after stripping) on every non-timestamp column. -/
theorem sig_eq_imp_strip_get {H : List String} {r r' : Row}
    (hnd : H.Nodup)
    (hk : r.map Prod.fst = H) (hk' : r'.map Prod.fst = H)
    (hkp : ∀ k ∈ H, '|' ∉ k.data)
    (hv : ∀ p ∈ r, '|' ∉ p.2.data) (hv' : ∀ p ∈ r', '|' ∉ p.2.data)
    (hsig : rowSignature r = rowSignature r')
    {k : String} (hkH : k ∈ H)
    (hts : CSVLogger.timestampFields.contains k = false) :
    pyStrip (alistGetD r k "") = pyStrip (alistGetD r' k "") := by
  have hkR : (r.map (fun p => (p.1, some p.2))).map Prod.fst = H := by
    rw [List.map_map]
    exact hk
  have hkR' : (r'.map (fun p => (p.1, some p.2))).map Prod.fst = H := by
    rw [List.map_map]
    exact hk'
  unfold rowSignature at hsig
  rw [loggerSig_eq_keyList _ (by rw [hkR]; exact hnd),
    loggerSig_eq_keyList _ (by rw [hkR']; exact hnd), hkR, hkR'] at hsig
  set K := (isortBy strLe H).filter
    (fun c => !(CSVLogger.timestampFields.contains c)) with hK
  have hmemH : ∀ c ∈ K, c ∈ H := fun c hc =>
    (isortBy_perm strLe H).mem_iff.mp (List.mem_filter.mp hc).1
  have hval : ∀ (s : Row), s.map Prod.fst = H → ∀ c ∈ K,
      ∃ v, alistGet? s c = some v ∧
        normalizeValue (pyValue (s.map (fun p => (p.1, some p.2))) c) =
          pyStrip v := by
    intro s hs c hc
    rcases alistHas_get (alistHas_iff_mem_keys.mpr (hs ▸ hmemH c hc)) with
      ⟨v, hvv⟩
    refine ⟨v, hvv, ?_⟩
    rw [pyValue_strRow, hvv]
    rfl
  have hpipe : ∀ (s : Row), s.map Prod.fst = H →
      (∀ p ∈ s, '|' ∉ p.2.data) → ∀ c ∈ K,
      '|' ∉ (c ++ ":" ++ normalizeValue
        (pyValue (s.map (fun p => (p.1, some p.2))) c)).data := by
    intro s hs hsv c hc
    rcases hval s hs c hc with ⟨v, hvv, hnv⟩
    rw [hnv]
    refine entry_pipe_free (hkp c (hmemH c hc)) ?_
    intro hm
    exact hsv _ (alistGet?_mem hvv) (pyStrip_data_sub hm)
  unfold sigOfKeyList at hsig
  have hmapeq := pyJoin_pipe_inj (by rw [List.length_map, List.length_map])
    (fun x hx => by
      rcases List.mem_map.mp hx with ⟨c, hc, rfl⟩
      exact hpipe r hk hv c hc)
    (fun x hx => by
      rcases List.mem_map.mp hx with ⟨c, hc, rfl⟩
      exact hpipe r' hk' hv' c hc) hsig
  have hkK : k ∈ K := by
    rw [hK]
    refine List.mem_filter.mpr ⟨(isortBy_perm strLe H).mem_iff.mpr hkH, ?_⟩
    rw [hts]
    rfl
  have hpt := map_eq_pointwise hmapeq k hkK
  rcases hval r hk k hkK with ⟨v, hvv, hnv⟩
  rcases hval r' hk' k hkK with ⟨v', hvv', hnv'⟩
  rw [hnv, hnv'] at hpt
  unfold alistGetD
  rw [hvv, hvv']
  exact entry_cancel hpt

/-- With whitespace-trimmed Appointment ID values, equal signatures force
equal Appointment ID columns. -/
theorem sig_eq_imp_id {H : List String} {r r' : Row}
    (hnd : H.Nodup)
    (hk : r.map Prod.fst = H) (hk' : r'.map Prod.fst = H)
    (hkp : ∀ c ∈ H, '|' ∉ c.data)
    (hv : ∀ p ∈ r, '|' ∉ p.2.data) (hv' : ∀ p ∈ r', '|' ∉ p.2.data)
    (hfix : pyStrip (alistGetD r "Appointment ID" "") =
      alistGetD r "Appointment ID" "")
    (hfix' : pyStrip (alistGetD r' "Appointment ID" "") =
      alistGetD r' "Appointment ID" "")
    (hidH : "Appointment ID" ∈ H)
    (hsig : rowSignature r = rowSignature r') :
    alistGetD r "Appointment ID" "" = alistGetD r' "Appointment ID" "" := by
  rw [← hfix, ← hfix']
  exact sig_eq_imp_strip_get hnd hk hk' hkp hv hv' hsig hidH (by decide)

/-! ### The per-file flag invariant -/

/-- The rows of one Business Key group. -/
def keyedBy (i : String) (r : Row) : Bool :=
  alistGetD r "Appointment ID" "" == i

/-- Every row of a non-empty Business Key group that still carries
Rescheduled = No has the same Appointment DateTime as the group's first
(earliest-written) row. -/
def flagsConsistent (rows : List Row) : Prop :=
  ∀ i : String, i ≠ "" → ∀ hd : Row,
    (rows.filter (keyedBy i)).head? = some hd →
    ∀ r ∈ rows, keyedBy i r = true →
    alistGetD r "Rescheduled" "No" = "No" →
    alistGetD r "Appointment DateTime" "" =
      alistGetD hd "Appointment DateTime" ""

/-- Transport of the flag invariant along two row transformations of a
common base list that agree on the key and datetime columns and reflect a
No flag. -/
theorem flagsConsistent_map₂ {α : Type} {l : List α} {g₁ g₂ : α → Row}
    (hid : ∀ x ∈ l, alistGetD (g₂ x) "Appointment ID" "" =
      alistGetD (g₁ x) "Appointment ID" "")
    (hdt : ∀ x ∈ l, alistGetD (g₂ x) "Appointment DateTime" "" =
      alistGetD (g₁ x) "Appointment DateTime" "")
    (hfl : ∀ x ∈ l, alistGetD (g₂ x) "Rescheduled" "No" = "No" →
      alistGetD (g₁ x) "Rescheduled" "No" = "No")
    (h : flagsConsistent (l.map g₁)) : flagsConsistent (l.map g₂) := by
  intro i hi hd₂ hhd₂ r₂ hr₂ hkey₂ hflag₂
  have hfilt₂ : (l.map g₂).filter (keyedBy i) =
      (l.filter (fun x => keyedBy i (g₁ x))).map g₂ := by
    rw [List.filter_map]
    congr 1
    apply List.filter_congr
    intro x hx
    show keyedBy i (g₂ x) = keyedBy i (g₁ x)
    unfold keyedBy
    rw [hid x hx]
  have hfilt₁ : (l.map g₁).filter (keyedBy i) =
      (l.filter (fun x => keyedBy i (g₁ x))).map g₁ := by
    rw [List.filter_map]
    rfl
  rw [hfilt₂, List.head?_map] at hhd₂
  rcases Option.map_eq_some'.mp hhd₂ with ⟨x₀, hx₀, hg₂x₀⟩
  have hx₀l : x₀ ∈ l := by
    have hm : x₀ ∈ l.filter (fun x => keyedBy i (g₁ x)) := by
      cases hc : l.filter (fun x => keyedBy i (g₁ x)) with
      | nil => rw [hc] at hx₀; cases hx₀
      | cons a t =>
        rw [hc] at hx₀
        have ha : a = x₀ := by simpa using hx₀
        rw [← ha]
        exact List.mem_cons_self _ _
    exact (List.mem_filter.mp hm).1
  have hhd₁ : ((l.map g₁).filter (keyedBy i)).head? = some (g₁ x₀) := by
    rw [hfilt₁, List.head?_map, hx₀]
    rfl
  rcases List.mem_map.mp hr₂ with ⟨x, hx, hg₂x⟩
  have hkey₁ : keyedBy i (g₁ x) = true := by
    unfold keyedBy at hkey₂ ⊢
    rw [← hid x hx, hg₂x]
    exact hkey₂
  have hflag₁ : alistGetD (g₁ x) "Rescheduled" "No" = "No" :=
    hfl x hx (by rw [hg₂x]; exact hflag₂)
  have hmain := h i hi (g₁ x₀) hhd₁ (g₁ x) (List.mem_map_of_mem g₁ hx)
    hkey₁ hflag₁
  rw [← hg₂x, ← hg₂x₀, hdt x hx, hdt x₀ hx₀l]
  exact hmain

/-- Appending one row preserves the flag invariant when the new row is
flagged Yes, or every existing row of its (non-empty) key group already
carries its datetime. -/
theorem flagsConsistent_snoc {rows : List Row} {s : Row}
    (hfc : flagsConsistent rows)
    (hcase : alistGetD s "Rescheduled" "No" = "Yes" ∨
      (alistGetD s "Appointment ID" "" ≠ "" →
        ∀ r ∈ rows, keyedBy (alistGetD s "Appointment ID" "") r = true →
          alistGetD r "Appointment DateTime" "" =
            alistGetD s "Appointment DateTime" "")) :
    flagsConsistent (rows ++ [s]) := by
  intro i hi hd hhd r hr hkey hflag
  rw [List.filter_append] at hhd
  by_cases hks : keyedBy i s = true
  · have hsid : alistGetD s "Appointment ID" "" = i := by
      unfold keyedBy at hks
      exact eq_of_beq hks
    cases hfr : rows.filter (keyedBy i) with
    | nil =>
      rw [hfr, List.filter_cons, if_pos hks] at hhd
      have hd_eq : hd = s := Eq.symm (by simpa using hhd)
      rcases List.mem_append.mp hr with hr1 | hr1
      · exfalso
        have hmem : r ∈ rows.filter (keyedBy i) :=
          List.mem_filter.mpr ⟨hr1, hkey⟩
        rw [hfr] at hmem
        exact absurd hmem (List.not_mem_nil r)
      · rcases List.mem_singleton.mp hr1 with rfl
        rw [hd_eq]
    | cons h0 t0 =>
      rw [hfr] at hhd
      have hd_eq : hd = h0 := Eq.symm (by simpa using hhd)
      rcases List.mem_append.mp hr with hr1 | hr1
      · rw [hd_eq]
        exact hfc i hi h0 (by rw [hfr]; rfl) r hr1 hkey hflag
      · rcases List.mem_singleton.mp hr1 with rfl
        rcases hcase with hYes | hAll
        · exact absurd (hYes.symm.trans hflag) (by decide)
        · have h0mem : h0 ∈ rows.filter (keyedBy i) := by
            rw [hfr]
            exact List.mem_cons_self _ _
          have h0f := List.mem_filter.mp h0mem
          have hkh0 : keyedBy (alistGetD r "Appointment ID" "") h0 = true := by
            rw [hsid]
            exact h0f.2
          have hdt0 := hAll (by rw [hsid]; exact hi) h0 h0f.1 hkh0
          rw [hd_eq, hdt0]
  · have hksf : keyedBy i s = false := by simpa using hks
    have hfs : List.filter (keyedBy i) [s] = [] := by
      rw [List.filter_cons, hksf]
      rfl
    rw [hfs, List.append_nil] at hhd
    rcases List.mem_append.mp hr with hr1 | hr1
    · exact hfc i hi hd hhd r hr1 hkey hflag
    · rcases List.mem_singleton.mp hr1 with rfl
      rw [hksf] at hkey
      exact Bool.noConfusion hkey

theorem flagsConsistent_single (s : Row) : flagsConsistent [s] := by
  intro i hi hd hhd r hr hkey hflag
  have hrs : r = s := List.mem_singleton.mp hr
  rw [hrs] at hkey hflag ⊢
  by_cases hks : keyedBy i s = true
  · rw [List.filter_cons, if_pos hks] at hhd
    have hds : hd = s := Eq.symm (by simpa using hhd)
    rw [hds]
  · have hksf : keyedBy i s = false := by simpa using hks
    rw [hksf] at hkey
    exact Bool.noConfusion hkey

/-! ### The dedup sweep keeps the first row of every key group -/

theorem dedupeRowsAux_sublist : ∀ (seen : List String) (rows : List Row),
    List.Sublist (dedupeRowsAux seen rows) rows
  | _, [] => List.Sublist.refl []
  | seen, r :: t => by
    simp only [dedupeRowsAux]
    by_cases hc : seen.contains (rowSignature r) = true
    · rw [if_pos hc]
      exact List.Sublist.cons r (dedupeRowsAux_sublist seen t)
    · rw [if_neg hc]
      exact List.Sublist.cons₂ r (dedupeRowsAux_sublist _ t)

theorem dedupe_split {hd : Row} (post : List Row) :
    ∀ (pre : List Row) (seen : List String),
    (∀ r ∈ pre, rowSignature r ≠ rowSignature hd) →
    rowSignature hd ∉ seen →
    ∃ kept rest, dedupeRowsAux seen (pre ++ hd :: post) = kept ++ hd :: rest ∧
      (∀ r ∈ kept, r ∈ pre)
  | [], seen, _, hns => by
    refine ⟨[], dedupeRowsAux (rowSignature hd :: seen) post, ?_,
      fun r h => absurd h (List.not_mem_nil r)⟩
    rw [List.nil_append, List.nil_append]
    simp only [dedupeRowsAux]
    rw [if_neg (fun hc => hns (by simpa using hc))]
  | p :: pre', seen, hpre, hns => by
    rw [List.cons_append]
    simp only [dedupeRowsAux]
    by_cases hc : seen.contains (rowSignature p) = true
    · rw [if_pos hc]
      obtain ⟨kept, rest, he, hk⟩ := dedupe_split post pre' seen
        (fun r hr => hpre r (List.mem_cons_of_mem _ hr)) hns
      exact ⟨kept, rest, he, fun r h => List.mem_cons_of_mem _ (hk r h)⟩
    · rw [if_neg hc]
      have hns' : rowSignature hd ∉ rowSignature p :: seen := by
        intro hm
        rcases List.mem_cons.mp hm with he | hm2
        · exact hpre p (List.mem_cons_self _ _) he.symm
        · exact hns hm2
      obtain ⟨kept, rest, he, hk⟩ := dedupe_split post pre'
        (rowSignature p :: seen)
        (fun r hr => hpre r (List.mem_cons_of_mem _ hr)) hns'
      refine ⟨p :: kept, rest, ?_, ?_⟩
      · rw [he, List.cons_append]
      · intro r h
        rcases List.mem_cons.mp h with rfl | h2
        · exact List.mem_cons_self _ _
        · exact List.mem_cons_of_mem _ (hk r h2)

theorem filter_head_split {p : Row → Bool} : ∀ {rows : List Row} {hd : Row},
    (rows.filter p).head? = some hd →
    ∃ pre post, rows = pre ++ hd :: post ∧ (∀ r ∈ pre, p r = false) ∧
      p hd = true
  | [], hd, h => by cases h
  | r :: t, hd, h => by
    rw [List.filter_cons] at h
    by_cases hp : p r = true
    · rw [if_pos hp] at h
      have he : hd = r := Eq.symm (by simpa using h)
      exact ⟨[], t, by rw [he]; rfl, fun x hx => absurd hx (List.not_mem_nil x),
        by rw [he]; exact hp⟩
    · rw [if_neg hp] at h
      obtain ⟨pre, post, he, hf, hphd⟩ := filter_head_split h
      refine ⟨r :: pre, post, by rw [List.cons_append, he], ?_, hphd⟩
      intro x hx
      rcases List.mem_cons.mp hx with rfl | hx2
      · simpa using hp
      · exact hf x hx2

/-- The dedup sweep preserves the flag invariant: when equal signatures
force equal Appointment ID columns, the first row of every key group is
never dropped (any earlier row with its signature would already sit in its
group), and the survivors are a subset. -/
theorem dedupe_flags {rows : List Row}
    (hinj : ∀ r ∈ rows, ∀ r' ∈ rows, rowSignature r = rowSignature r' →
      alistGetD r "Appointment ID" "" = alistGetD r' "Appointment ID" "")
    (hfc : flagsConsistent rows) :
    flagsConsistent (dedupeRowsAux [] rows) := by
  intro i hi hd' hhd' r hr hkey hflag
  have hrmem : r ∈ rows := (dedupeRowsAux_sublist [] rows).subset hr
  cases hfr : (rows.filter (keyedBy i)).head? with
  | none =>
    exfalso
    have hgr : r ∈ rows.filter (keyedBy i) := List.mem_filter.mpr ⟨hrmem, hkey⟩
    rw [List.head?_eq_none_iff] at hfr
    rw [hfr] at hgr
    exact absurd hgr (List.not_mem_nil r)
  | some hd =>
    obtain ⟨pre, post, hrows, hpf, hdkey⟩ := filter_head_split hfr
    have hdmem : hd ∈ rows := by
      rw [hrows]
      exact List.mem_append_right _ (List.mem_cons_self _ _)
    have hpre_sig : ∀ q ∈ pre, rowSignature q ≠ rowSignature hd := by
      intro q hq he
      have hqmem : q ∈ rows := by
        rw [hrows]
        exact List.mem_append_left _ hq
      have hqid := hinj q hqmem hd hdmem he
      have hidq : keyedBy i q = true := by
        unfold keyedBy at hdkey ⊢
        rw [hqid]
        exact hdkey
      rw [hpf q hq] at hidq
      exact Bool.noConfusion hidq
    obtain ⟨kept, rest, hD, hkeptsub⟩ :=
      dedupe_split post pre [] hpre_sig (List.not_mem_nil _)
    have hDfilt : ((kept ++ hd :: rest).filter (keyedBy i)) =
        hd :: rest.filter (keyedBy i) := by
      rw [List.filter_append, List.filter_cons, if_pos hdkey]
      have hknil : kept.filter (keyedBy i) = [] := by
        rw [List.filter_eq_nil_iff]
        intro q hq hkq
        have := hpf q (hkeptsub q hq)
        rw [this] at hkq
        exact Bool.noConfusion hkq
      rw [hknil, List.nil_append]
    rw [hrows, hD, hDfilt] at hhd'
    have hd'_eq : hd' = hd := Eq.symm (by simpa using hhd')
    rw [hd'_eq]
    exact hfc i hi hd hfr r hrmem hkey hflag

/-! ### The invariant carried across engine operations -/

/-- Header well-formedness: non-empty, duplicate-free, holding the columns
the engine reads back, all pipe-free. -/
def HdrInv (hdr : List String) : Prop :=
  hdr ≠ [] ∧ hdr.Nodup ∧ "Rescheduled" ∈ hdr ∧ "Appointment ID" ∈ hdr ∧
  "Appointment DateTime" ∈ hdr ∧ ∀ k ∈ hdr, '|' ∉ k.data

/-- Row well-formedness over a header: every row binds exactly the header
columns, values are pipe-free, Appointment ID values are whitespace-trimmed,
the flag column is Yes or No, and the flag invariant holds. -/
def RowsInv (hdr : List String) (rows : List Row) : Prop :=
  (∀ r ∈ rows, r.map Prod.fst = hdr) ∧
  (∀ r ∈ rows, ∀ p ∈ r, '|' ∉ p.2.data) ∧
  (∀ r ∈ rows, pyStrip (alistGetD r "Appointment ID" "") =
    alistGetD r "Appointment ID" "") ∧
  (∀ r ∈ rows, alistGetD r "Rescheduled" "No" = "Yes" ∨
    alistGetD r "Rescheduled" "No" = "No") ∧
  flagsConsistent rows

def FileInv (f : CSVFile) : Prop := HdrInv f.header ∧ RowsInv f.header f.rows

def DirInv (dir : Dir) : Prop :=
  ∀ fname f, alistGet? dir fname = some f → FileInv f

theorem alistGetD_congr_default {l : Row} {k : String}
    (h : k ∈ l.map Prod.fst) (d d' : String) :
    alistGetD l k d = alistGetD l k d' := by
  rcases alistHas_get (alistHas_iff_mem_keys.mpr h) with ⟨v, hv⟩
  unfold alistGetD
  rw [hv]
  rfl

theorem storedRow_getD_of_mem {all : List String} {r : Row} {k : String}
    (hk : k ∈ all) (hkr : k ∈ r.map Prod.fst) (d : String) :
    alistGetD (storedRow all r) k d = alistGetD r k d := by
  unfold alistGetD
  rw [storedRow_get, if_pos hk]
  show alistGetD r k "" = (alistGet? r k).getD d
  rcases alistHas_get (alistHas_iff_mem_keys.mpr hkr) with ⟨v, hv⟩
  unfold alistGetD
  rw [hv]
  rfl

/-- Laying out a row over its own header is the identity. -/
theorem storedRow_self {hdr : List String} {r : Row}
    (hk : r.map Prod.fst = hdr) (hnd : hdr.Nodup) : storedRow hdr r = r := by
  have hr : r = hdr.map (fun k => (k, alistGetD r k "")) := by
    apply keyFn_decomp hk
    intro p hp
    have hget : alistGet? r p.1 = some p.2 := by
      apply alistGet?_eq_of_mem_nodup (by rw [hk]; exact hnd)
      obtain ⟨a, b⟩ := p
      exact hp
    unfold alistGetD
    rw [hget]
    rfl
  unfold storedRow
  exact hr.symm

theorem mergedHeaders_nil_decomp (fd : Row) :
    mergedHeaders [] fd =
      FORM_CSV_BASE_HEADERS ++ encounterNew FORM_CSV_BASE_HEADERS fd := by
  have h1 : mergedHeaders [] fd = fd.foldl
      (fun hs p => if hs.contains p.1 then hs else hs ++ [p.1])
      FORM_CSV_BASE_HEADERS := rfl
  rw [h1]
  have h2 := mergeFold_decomp fd FORM_CSV_BASE_HEADERS []
  rw [List.append_nil] at h2
  exact h2

/-- When the merged header has the same column set as the existing one, it
is the existing header unchanged (nothing was appended). -/
theorem mergedHeaders_eq_self {existing : List String} {fd : Row}
    (hne : existing ≠ [])
    (hsame : sameHeaderSet (mergedHeaders existing fd) existing = true) :
    mergedHeaders existing fd = existing := by
  have hdec := mergedHeaders_decomp existing fd hne
  have hnil : encounterNew existing fd = [] := by
    rw [List.eq_nil_iff_forall_not_mem]
    intro x hx
    rcases mem_encounterFold hx with h1 | h1
    · exact absurd h1 (List.not_mem_nil x)
    · have hxm : x ∈ mergedHeaders existing fd := by
        rw [hdec]
        exact List.mem_append_right _ hx
      have hall : (mergedHeaders existing fd).all
          (fun h => existing.contains h) = true := by
        unfold sameHeaderSet at hsame
        exact (Bool.and_eq_true _ _ ▸ hsame).1
      have hcx := List.all_eq_true.mp hall x hxm
      rw [h1.2] at hcx
      exact Bool.noConfusion hcx
  rw [hdec, hnil, List.append_nil]

theorem mem_enum_fix {T : List Nat} {rows : List Row} {r' : Row}
    (h : r' ∈ (enumFromN 0 rows).map (fixUpd T)) :
    ∃ p, p ∈ enumFromN 0 rows ∧ p.2 ∈ rows ∧ r' = fixUpd T p := by
  rcases List.mem_map.mp h with ⟨p, hp, hpe⟩
  refine ⟨p, hp, ?_, hpe.symm⟩
  have : p.2 ∈ (enumFromN 0 rows).map Prod.snd := List.mem_map_of_mem _ hp
  rw [enumFromN_snd] at this
  exact this

theorem fixUpd_flag_no {T : List Nat} {p : Nat × Row}
    (h : alistGetD (fixUpd T p) "Rescheduled" "No" = "No") :
    alistGetD p.2 "Rescheduled" "No" = "No" := by
  by_cases hc : T.contains p.1 = true
  · rw [fixUpd_resc T p hc] at h
    exact absurd h (by decide)
  · unfold fixUpd at h
    rw [if_neg hc] at h
    exact h

/-- The inferencer's row pass preserves row well-formedness: it only turns
No flags of selected rows into Yes. -/
theorem fix_rows_inv {hdr : List String} {rows : List Row}
    (hresc : "Rescheduled" ∈ hdr)
    (hinv : RowsInv hdr rows) :
    RowsInv hdr (fixRescheduledRows tsSortKey rows).1 := by
  obtain ⟨hkeys, hvp, hids, hflag, hfc⟩ := hinv
  simp only [fixRescheduledRows]
  by_cases ht : (fixTargets tsSortKey rows).isEmpty = true
  · rw [if_pos ht]
    exact ⟨hkeys, hvp, hids, hflag, hfc⟩
  · rw [if_neg ht]
    refine ⟨?_, ?_, ?_, ?_, ?_⟩
    · intro r' hr'
      rcases mem_enum_fix hr' with ⟨p, _, hp2, rfl⟩
      unfold fixUpd
      by_cases hc : (fixTargets tsSortKey rows).contains p.1 = true
      · rw [if_pos hc]
        rw [alistUpsert_keys_of_has _ (alistHas_iff_mem_keys.mpr
          (by rw [hkeys p.2 hp2]; exact hresc))]
        exact hkeys p.2 hp2
      · rw [if_neg hc]
        exact hkeys p.2 hp2
    · intro r' hr' q hq
      rcases mem_enum_fix hr' with ⟨p, _, hp2, rfl⟩
      unfold fixUpd at hq
      by_cases hc : (fixTargets tsSortKey rows).contains p.1 = true
      · rw [if_pos hc] at hq
        rcases mem_alistUpsert hq with h1 | h1
        · exact hvp p.2 hp2 q h1
        · rw [h1]
          decide
      · rw [if_neg hc] at hq
        exact hvp p.2 hp2 q hq
    · intro r' hr'
      rcases mem_enum_fix hr' with ⟨p, _, hp2, rfl⟩
      rw [fixUpd_get_ne _ p (by decide) ""]
      exact hids p.2 hp2
    · intro r' hr'
      rcases mem_enum_fix hr' with ⟨p, _, hp2, rfl⟩
      by_cases hc : (fixTargets tsSortKey rows).contains p.1 = true
      · exact Or.inl (fixUpd_resc _ p hc)
      · unfold fixUpd
        rw [if_neg hc]
        exact hflag p.2 hp2
    · have hbase : flagsConsistent ((enumFromN 0 rows).map Prod.snd) := by
        rw [enumFromN_snd]
        exact hfc
      have hid : ∀ x ∈ enumFromN 0 rows,
          alistGetD (fixUpd (fixTargets tsSortKey rows) x)
            "Appointment ID" "" = alistGetD (Prod.snd x) "Appointment ID" "" :=
        fun x _ => fixUpd_get_ne _ x (by decide) ""
      have hdt : ∀ x ∈ enumFromN 0 rows,
          alistGetD (fixUpd (fixTargets tsSortKey rows) x)
            "Appointment DateTime" "" =
            alistGetD (Prod.snd x) "Appointment DateTime" "" :=
        fun x _ => fixUpd_get_ne _ x (by decide) ""
      have hfl : ∀ x ∈ enumFromN 0 rows,
          alistGetD (fixUpd (fixTargets tsSortKey rows) x)
            "Rescheduled" "No" = "No" →
            alistGetD (Prod.snd x) "Rescheduled" "No" = "No" :=
        fun x _ h => fixUpd_flag_no h
      exact flagsConsistent_map₂ hid hdt hfl hbase

/-- CSVLogger._fix_rescheduled_field_in_file preserves the file
invariant. -/
theorem fix_file_inv {f : CSVFile} (h : FileInv f) :
    FileInv (fixRescheduledFieldInFile f).1 := by
  obtain ⟨hh, hr⟩ := h
  simp only [fixRescheduledFieldInFile]
  by_cases hc : (!(f.header.contains "Rescheduled")) = true
  · rw [if_pos hc]
    exact ⟨hh, hr⟩
  · rw [if_neg hc]
    by_cases he : f.rows.isEmpty = true
    · rw [if_pos he]
      exact ⟨hh, hr⟩
    · rw [if_neg he]
      exact ⟨hh, fix_rows_inv hh.2.2.1 hr⟩

/-- CSVLogger._dedupe_csv_file preserves the file invariant. -/
theorem dedupe_file_inv {f : CSVFile} (h : FileInv f) :
    FileInv (dedupeCsvFile f) := by
  obtain ⟨hh, hkeys, hvp, hids, hflag, hfc⟩ := h
  have hsub : ∀ r ∈ dedupeRowsAux [] f.rows, r ∈ f.rows :=
    fun r hr => (dedupeRowsAux_sublist [] f.rows).subset hr
  refine ⟨hh, fun r hr => hkeys r (hsub r hr), fun r hr => hvp r (hsub r hr),
    fun r hr => hids r (hsub r hr), fun r hr => hflag r (hsub r hr), ?_⟩
  apply dedupe_flags ?_ hfc
  intro r hr r' hr' hsig
  exact sig_eq_imp_id hh.2.1 (hkeys r hr) (hkeys r' hr') hh.2.2.2.2.2
    (hvp r hr) (hvp r' hr') (hids r hr) (hids r' hr') hh.2.2.2.1 hsig

/-- Widening every stored row to the merged header and appending the new
record preserves the file invariant, provided the new record is flagged Yes
or every stored row of its key group already carries its datetime (what a
false reschedule check guarantees). -/
theorem append_file_inv {f : CSVFile} {fd : Row}
    (hf : FileInv f)
    (hfdid : "Appointment ID" ∈ fd.map Prod.fst)
    (hfddt : "Appointment DateTime" ∈ fd.map Prod.fst)
    (hfdresc : "Rescheduled" ∈ fd.map Prod.fst)
    (hfdkp : ∀ k ∈ fd.map Prod.fst, '|' ∉ k.data)
    (hfdvp : ∀ p ∈ fd, '|' ∉ p.2.data)
    (hfdids : pyStrip (alistGetD fd "Appointment ID" "") =
      alistGetD fd "Appointment ID" "")
    (hfdflag : alistGetD fd "Rescheduled" "No" = "Yes" ∨
      alistGetD fd "Rescheduled" "No" = "No")
    (hcase : alistGetD fd "Rescheduled" "No" = "Yes" ∨
      (alistGetD fd "Appointment ID" "" ≠ "" →
        ∀ r ∈ f.rows, keyedBy (alistGetD fd "Appointment ID" "") r = true →
          alistGetD r "Appointment DateTime" "" =
            alistGetD fd "Appointment DateTime" "")) :
    FileInv ⟨mergedHeaders f.header fd,
      f.rows.map (storedRow (mergedHeaders f.header fd)) ++
        [storedRow (mergedHeaders f.header fd) fd]⟩ := by
  obtain ⟨⟨hne, hnd, hrescH, hidH, hdtH, hkp⟩, hkeys, hvp, hids, hflag, hfc⟩ :=
    hf
  have hdec := mergedHeaders_decomp f.header fd hne
  have hallne : mergedHeaders f.header fd ≠ [] := by
    intro h0
    rw [hdec] at h0
    exact hne (List.append_eq_nil.mp h0).1
  have hallnd : (mergedHeaders f.header fd).Nodup := mergedHeaders_nodup _ _ hnd
  have hsubH : ∀ k, k ∈ f.header → k ∈ mergedHeaders f.header fd := by
    intro k hk
    rw [hdec]
    exact List.mem_append_left _ hk
  have hallkp : ∀ k ∈ mergedHeaders f.header fd, '|' ∉ k.data := by
    intro k hk
    rw [hdec] at hk
    rcases List.mem_append.mp hk with h1 | h1
    · exact hkp k h1
    · rcases mem_encounterFold h1 with h2 | h2
      · exact absurd h2 (List.not_mem_nil k)
      · exact hfdkp k h2.1
  have hobs : ∀ r ∈ f.rows, ∀ k, k ∈ f.header → ∀ d,
      alistGetD (storedRow (mergedHeaders f.header fd) r) k d =
        alistGetD r k d := by
    intro r hr k hk d
    exact storedRow_getD_of_mem (hsubH k hk) (by rw [hkeys r hr]; exact hk) d
  have hsobs : ∀ k, k ∈ fd.map Prod.fst → ∀ d,
      alistGetD (storedRow (mergedHeaders f.header fd) fd) k d =
        alistGetD fd k d :=
    fun k hk d => storedRow_getD_of_mem (mem_mergedHeaders_of_key hk) hk d
  refine ⟨⟨hallne, hallnd, hsubH _ hrescH, hsubH _ hidH, hsubH _ hdtH, hallkp⟩,
    ?_, ?_, ?_, ?_, ?_⟩
  · intro r' hr'
    rcases List.mem_append.mp hr' with h1 | h1
    · rcases List.mem_map.mp h1 with ⟨r, hr, rfl⟩
      exact storedRow_keys _ _
    · rw [List.mem_singleton.mp h1]
      exact storedRow_keys _ _
  · intro r' hr' q hq
    have hrow : ∀ (src : Row), (∀ p ∈ src, '|' ∉ p.2.data) →
        q ∈ storedRow (mergedHeaders f.header fd) src → '|' ∉ q.2.data := by
      intro src hsrc hq'
      rcases List.mem_map.mp hq' with ⟨hcol, hhcol, rfl⟩
      show '|' ∉ (alistGetD src hcol "").data
      rcases alistGetD_mem_vals src hcol "" with h2 | h2
      · rcases List.mem_map.mp h2 with ⟨q0, hq0, hq0e⟩
        rw [← hq0e]
        exact hsrc q0 hq0
      · rw [h2]
        decide
    rcases List.mem_append.mp hr' with h1 | h1
    · rcases List.mem_map.mp h1 with ⟨r, hr, rfl⟩
      exact hrow r (hvp r hr) hq
    · rw [List.mem_singleton.mp h1] at hq
      exact hrow fd hfdvp hq
  · intro r' hr'
    rcases List.mem_append.mp hr' with h1 | h1
    · rcases List.mem_map.mp h1 with ⟨r, hr, rfl⟩
      rw [hobs r hr _ hidH ""]
      exact hids r hr
    · rw [List.mem_singleton.mp h1]
      rw [hsobs _ hfdid ""]
      exact hfdids
  · intro r' hr'
    rcases List.mem_append.mp hr' with h1 | h1
    · rcases List.mem_map.mp h1 with ⟨r, hr, rfl⟩
      rw [hobs r hr _ hrescH "No"]
      exact hflag r hr
    · rw [List.mem_singleton.mp h1]
      rw [hsobs _ hfdresc "No"]
      exact hfdflag
  · have hwr : flagsConsistent
        (f.rows.map (storedRow (mergedHeaders f.header fd))) := by
      have hbase : flagsConsistent (f.rows.map id) := by
        rw [List.map_id]
        exact hfc
      have hid' : ∀ x ∈ f.rows,
          alistGetD (storedRow (mergedHeaders f.header fd) x)
            "Appointment ID" "" = alistGetD (id x) "Appointment ID" "" :=
        fun x hx => hobs x hx _ hidH ""
      have hdt' : ∀ x ∈ f.rows,
          alistGetD (storedRow (mergedHeaders f.header fd) x)
            "Appointment DateTime" "" =
            alistGetD (id x) "Appointment DateTime" "" :=
        fun x hx => hobs x hx _ hdtH ""
      have hfl' : ∀ x ∈ f.rows,
          alistGetD (storedRow (mergedHeaders f.header fd) x)
            "Rescheduled" "No" = "No" →
            alistGetD (id x) "Rescheduled" "No" = "No" :=
        fun x hx h => by
          show alistGetD x "Rescheduled" "No" = "No"
          rw [← hobs x hx _ hrescH "No"]
          exact h
      exact flagsConsistent_map₂ hid' hdt' hfl' hbase
    apply flagsConsistent_snoc hwr
    rcases hcase with hYes | hAll
    · exact Or.inl (by rw [hsobs _ hfdresc "No"]; exact hYes)
    · refine Or.inr ?_
      intro hne' r' hr' hkey'
      rw [hsobs _ hfdid ""] at hne'
      rcases List.mem_map.mp hr' with ⟨r, hr, rfl⟩
      have hkey : keyedBy (alistGetD fd "Appointment ID" "") r = true := by
        unfold keyedBy at hkey' ⊢
        rw [hsobs _ hfdid "", hobs r hr _ hidH ""] at hkey'
        exact hkey'
      rw [hobs r hr _ hdtH "", hsobs _ hfddt ""]
      exact hAll hne' r hr hkey

/-- A freshly created single-record file satisfies the file invariant. -/
theorem new_file_inv {fd : Row}
    (hfdid : "Appointment ID" ∈ fd.map Prod.fst)
    (hfdresc : "Rescheduled" ∈ fd.map Prod.fst)
    (hfdkp : ∀ k ∈ fd.map Prod.fst, '|' ∉ k.data)
    (hfdvp : ∀ p ∈ fd, '|' ∉ p.2.data)
    (hfdids : pyStrip (alistGetD fd "Appointment ID" "") =
      alistGetD fd "Appointment ID" "")
    (hfdflag : alistGetD fd "Rescheduled" "No" = "Yes" ∨
      alistGetD fd "Rescheduled" "No" = "No") :
    FileInv ⟨mergedHeaders [] fd, [storedRow (mergedHeaders [] fd) fd]⟩ := by
  have hdec := mergedHeaders_nil_decomp fd
  have hBmem : ∀ k, k ∈ FORM_CSV_BASE_HEADERS → k ∈ mergedHeaders [] fd := by
    intro k hk
    rw [hdec]
    exact List.mem_append_left _ hk
  have hsobs : ∀ k, k ∈ fd.map Prod.fst → ∀ d,
      alistGetD (storedRow (mergedHeaders [] fd) fd) k d =
        alistGetD fd k d :=
    fun k hk d => storedRow_getD_of_mem (mem_mergedHeaders_of_key hk) hk d
  refine ⟨⟨?_, mergedHeaders_nodup _ _ List.nodup_nil, hBmem _ (by decide),
    hBmem _ (by decide), hBmem _ (by decide), ?_⟩, ?_, ?_, ?_, ?_, ?_⟩
  · intro h0
    rw [hdec] at h0
    exact absurd (List.append_eq_nil.mp h0).1 (by decide)
  · intro k hk
    rw [hdec] at hk
    rcases List.mem_append.mp hk with h1 | h1
    · revert h1
      have : ∀ k ∈ FORM_CSV_BASE_HEADERS, '|' ∉ k.data := by decide
      exact this k
    · rcases mem_encounterFold h1 with h2 | h2
      · exact absurd h2 (List.not_mem_nil k)
      · exact hfdkp k h2.1
  · intro r' hr'
    rw [List.mem_singleton.mp hr']
    exact storedRow_keys _ _
  · intro r' hr' q hq
    rw [List.mem_singleton.mp hr'] at hq
    rcases List.mem_map.mp hq with ⟨hcol, hhcol, rfl⟩
    show '|' ∉ (alistGetD fd hcol "").data
    rcases alistGetD_mem_vals fd hcol "" with h2 | h2
    · rcases List.mem_map.mp h2 with ⟨q0, hq0, hq0e⟩
      rw [← hq0e]
      exact hfdvp q0 hq0
    · rw [h2]
      decide
  · intro r' hr'
    rw [List.mem_singleton.mp hr']
    rw [hsobs _ hfdid ""]
    exact hfdids
  · intro r' hr'
    rw [List.mem_singleton.mp hr']
    rw [hsobs _ hfdresc "No"]
    exact hfdflag
  · exact flagsConsistent_single _

/-! ### Per-operation hypotheses and the operation-level invariant step -/

/-- The columns _extract_form_data reserves for the base record data. -/
def logBaseKeys : List String :=
  ["Sync Timestamp", "Appointment ID", "Client Name", "Email", "Phone",
   "Appointment DateTime", "Canceled", "Rescheduled"]

/-- Well-formedness of one engine operation: pipe-free scalar fields and
form answers, a whitespace-trimmed Appointment ID, and form field names
that neither collide with the base columns nor contain a pipe. -/
def OpHyp (fmt : String → String) (op : LogOp) : Prop :=
  '|' ∉ op.syncTs.data ∧
  '|' ∉ op.record.appointment_id.data ∧
  pyStrip op.record.appointment_id = op.record.appointment_id ∧
  '|' ∉ op.record.client_name.data ∧
  '|' ∉ op.record.email.data ∧
  '|' ∉ op.record.phone.data ∧
  '|' ∉ (fmt op.record.datetime).data ∧
  ∀ form ∈ op.record.forms, ∀ field ∈ form,
    pyStrip field.name ∉ logBaseKeys ∧
    '|' ∉ (pyStrip field.name).data ∧ '|' ∉ field.value.data

instance (fmt : String → String) (op : LogOp) : Decidable (OpHyp fmt op) := by
  unfold OpHyp
  infer_instance

theorem boolYesNo_pipe (b : Bool) : '|' ∉ (boolYesNo b).data := by
  cases b <;> decide

theorem boolYesNo_cases (b : Bool) :
    boolYesNo b = "Yes" ∨ boolYesNo b = "No" := by
  cases b with
  | false => exact Or.inr rfl
  | true => exact Or.inl rfl

theorem base_pair_cases {dir : Dir} {fmt : String → String} {s : String}
    {rec : AcuityRecord} {p : String × String}
    (hp : p ∈ baseFormData dir fmt s rec) :
    p = ("Sync Timestamp", s) ∨ p = ("Appointment ID", rec.appointment_id) ∨
    p = ("Client Name", rec.client_name) ∨ p = ("Email", rec.email) ∨
    p = ("Phone", rec.phone) ∨
    p = ("Appointment DateTime", fmt rec.datetime) ∨
    p = ("Canceled", boolYesNo rec.canceled) ∨
    p = ("Rescheduled", boolYesNo (checkIfRescheduled dir rec.appointment_id
      (fmt rec.datetime) rec.canceled)) := by
  unfold baseFormData at hp
  simpa using hp

/-- A false reschedule check pins the datetime of every same-id row of any
.csv-named file of the directory to the incoming one. -/
theorem check_false_file {dir : Dir} {fname : String} {f : CSVFile}
    (hget : alistGet? dir fname = some f)
    (hcsv : strEnds fname ".csv" = true)
    {aptId dt : String} {c : Bool}
    (hid : aptId ≠ "")
    (hchk : checkIfRescheduled dir aptId dt c = false) :
    ∀ r ∈ f.rows, (alistGetD r "Appointment ID" "" == aptId) = true →
      alistGetD r "Appointment DateTime" "" = dt := by
  intro r hr hkey
  unfold checkIfRescheduled at hchk
  rw [if_neg (by simpa using hid)] at hchk
  have hmem : (fname, f) ∈ dir := alistGet?_mem hget
  have hall : (strEnds fname ".csv" &&
      f.rows.any (fun row =>
        alistGetD row "Appointment ID" "" == aptId &&
        (alistGetD row "Appointment DateTime" "" != dt ||
         alistGetD row "Canceled" "No" != boolYesNo c))) = false :=
    Bool.eq_false_iff.mpr (List.any_eq_false.mp hchk _ hmem)
  rw [hcsv, Bool.true_and] at hall
  have hrow : (alistGetD r "Appointment ID" "" == aptId &&
      (alistGetD r "Appointment DateTime" "" != dt ||
       alistGetD r "Canceled" "No" != boolYesNo c)) = false :=
    Bool.eq_false_iff.mpr (List.any_eq_false.mp hall r hr)
  rw [hkey, Bool.true_and] at hrow
  have hdt := (Bool.or_eq_false_iff.mp hrow).1
  simpa using hdt

/-- The form-data dict extracted from a well-formed operation: reserved
columns present with the base values, pipe-free columns and values, and a
trimmed id. -/
theorem extract_fd_facts {dir : Dir} {fmt : String → String} {s : String}
    {rec : AcuityRecord} (hop : OpHyp fmt ⟨s, rec⟩) :
    "Appointment ID" ∈
      (applyForms (baseFormData dir fmt s rec) rec.forms).map Prod.fst ∧
    "Appointment DateTime" ∈
      (applyForms (baseFormData dir fmt s rec) rec.forms).map Prod.fst ∧
    "Rescheduled" ∈
      (applyForms (baseFormData dir fmt s rec) rec.forms).map Prod.fst ∧
    (∀ k ∈ (applyForms (baseFormData dir fmt s rec) rec.forms).map Prod.fst,
      '|' ∉ k.data) ∧
    (∀ p ∈ applyForms (baseFormData dir fmt s rec) rec.forms,
      '|' ∉ p.2.data) ∧
    alistGetD (applyForms (baseFormData dir fmt s rec) rec.forms)
      "Appointment ID" "" = rec.appointment_id ∧
    alistGetD (applyForms (baseFormData dir fmt s rec) rec.forms)
      "Appointment DateTime" "" = fmt rec.datetime ∧
    alistGetD (applyForms (baseFormData dir fmt s rec) rec.forms)
      "Rescheduled" "No" = boolYesNo (checkIfRescheduled dir
        rec.appointment_id (fmt rec.datetime) rec.canceled) := by
  obtain ⟨hsy, hip, hit, hcn, hem, hph, hdt, hf⟩ := hop
  have hbk : (baseFormData dir fmt s rec).map Prod.fst = logBaseKeys := rfl
  have hnid : ∀ form ∈ rec.forms, ∀ field ∈ form,
      pyStrip field.name ≠ "Appointment ID" := by
    intro fo hfo fi hfi heq
    exact (hf fo hfo fi hfi).1 (by rw [heq]; decide)
  have hndt : ∀ form ∈ rec.forms, ∀ field ∈ form,
      pyStrip field.name ≠ "Appointment DateTime" := by
    intro fo hfo fi hfi heq
    exact (hf fo hfo fi hfi).1 (by rw [heq]; decide)
  have hnre : ∀ form ∈ rec.forms, ∀ field ∈ form,
      pyStrip field.name ≠ "Rescheduled" := by
    intro fo hfo fi hfi heq
    exact (hf fo hfo fi hfi).1 (by rw [heq]; decide)
  refine ⟨applyForms_keys_mono _ (by rw [hbk]; decide),
    applyForms_keys_mono _ (by rw [hbk]; decide),
    applyForms_keys_mono _ (by rw [hbk]; decide), ?_, ?_, ?_, ?_, ?_⟩
  · intro k hk
    rcases List.mem_map.mp hk with ⟨p, hp, rfl⟩
    have hbkp : ∀ c ∈ logBaseKeys, '|' ∉ c.data := by decide
    rcases mem_applyForms hp with h1 | h1
    · rcases base_pair_cases h1 with h2|h2|h2|h2|h2|h2|h2|h2 <;> rw [h2]
      · exact hbkp "Sync Timestamp" (by decide)
      · exact hbkp "Appointment ID" (by decide)
      · exact hbkp "Client Name" (by decide)
      · exact hbkp "Email" (by decide)
      · exact hbkp "Phone" (by decide)
      · exact hbkp "Appointment DateTime" (by decide)
      · exact hbkp "Canceled" (by decide)
      · exact hbkp "Rescheduled" (by decide)
    · rcases h1 with ⟨fo, hfo, fi, hfi, he1, _⟩
      rw [he1]
      exact (hf fo hfo fi hfi).2.1
  · intro p hp
    rcases mem_applyForms hp with h1 | h1
    · rcases base_pair_cases h1 with h2|h2|h2|h2|h2|h2|h2|h2 <;> rw [h2]
      · exact hsy
      · exact hip
      · exact hcn
      · exact hem
      · exact hph
      · exact hdt
      · exact boolYesNo_pipe _
      · exact boolYesNo_pipe _
    · rcases h1 with ⟨fo, hfo, fi, hfi, _, he2⟩
      rw [he2]
      exact (hf fo hfo fi hfi).2.2
  · unfold alistGetD
    rw [applyForms_get_of_ne hnid]
    rfl
  · unfold alistGetD
    rw [applyForms_get_of_ne hndt]
    rfl
  · unfold alistGetD
    rw [applyForms_get_of_ne hnre]
    rfl

/-- _write_form_csv preserves the file invariant (for the target filename's
slot) under the form-data facts established for a well-formed operation. -/
theorem writeFormCsv_file_inv {file : Option CSVFile} {fd : Row}
    (hfile : ∀ f, file = some f → FileInv f)
    (hfdid : "Appointment ID" ∈ fd.map Prod.fst)
    (hfddt : "Appointment DateTime" ∈ fd.map Prod.fst)
    (hfdresc : "Rescheduled" ∈ fd.map Prod.fst)
    (hfdkp : ∀ k ∈ fd.map Prod.fst, '|' ∉ k.data)
    (hfdvp : ∀ p ∈ fd, '|' ∉ p.2.data)
    (hfdids : pyStrip (alistGetD fd "Appointment ID" "") =
      alistGetD fd "Appointment ID" "")
    (hfdflag : alistGetD fd "Rescheduled" "No" = "Yes" ∨
      alistGetD fd "Rescheduled" "No" = "No")
    (hcase : ∀ f, file = some f →
      alistGetD fd "Rescheduled" "No" = "Yes" ∨
      (alistGetD fd "Appointment ID" "" ≠ "" →
        ∀ r ∈ f.rows, keyedBy (alistGetD fd "Appointment ID" "") r = true →
          alistGetD r "Appointment DateTime" "" =
            alistGetD fd "Appointment DateTime" "")) :
    FileInv (writeFormCsv file fd).1 := by
  cases file with
  | none =>
    exact dedupe_file_inv (fix_file_inv
      (new_file_inv hfdid hfdresc hfdkp hfdvp hfdids hfdflag))
  | some f0 =>
    have hinv0 := hfile f0 rfl
    simp only [writeFormCsv]
    by_cases hskip :
        (f0.rows.any fun r => rowSignature r == rowSignature fd) = true
    · rw [if_pos hskip]
      exact hinv0
    · rw [if_neg hskip]
      by_cases hhdr : (!f0.header.isEmpty &&
          !sameHeaderSet (mergedHeaders f0.header fd) f0.header) = true
      · rw [if_pos hhdr]
        exact dedupe_file_inv (fix_file_inv (append_file_inv hinv0 hfdid
          hfddt hfdresc hfdkp hfdvp hfdids hfdflag (hcase f0 rfl)))
      · rw [if_neg hhdr]
        have hne0 : f0.header ≠ [] := hinv0.1.1
        have hsame : sameHeaderSet (mergedHeaders f0.header fd) f0.header
            = true := by
          have h1 : (!f0.header.isEmpty) = true := by
            cases hh : f0.header with
            | nil => exact absurd hh hne0
            | cons a t => rfl
          have hf2 : (!f0.header.isEmpty &&
              !sameHeaderSet (mergedHeaders f0.header fd) f0.header) = false :=
            Bool.eq_false_iff.mpr hhdr
          rcases Bool.and_eq_false_iff.mp hf2 with h2 | h2
          · rw [h1] at h2
            exact Bool.noConfusion h2
          · simpa using h2
        have hall_eq := mergedHeaders_eq_self hne0 hsame
        have hmapid :
            f0.rows.map (storedRow (mergedHeaders f0.header fd)) = f0.rows := by
          have hpt : ∀ r ∈ f0.rows,
              storedRow (mergedHeaders f0.header fd) r = id r := by
            intro r hr
            show storedRow _ r = r
            apply storedRow_self
            · rw [hall_eq]
              exact hinv0.2.1 r hr
            · rw [hall_eq]
              exact hinv0.1.2.1
          have hm := List.map_congr_left hpt
          rw [hm, List.map_id]
        rw [← hmapid]
        exact dedupe_file_inv (fix_file_inv (append_file_inv hinv0 hfdid
          hfddt hfdresc hfdkp hfdvp hfdids hfdflag (hcase f0 rfl)))

/-- One log_form_data call preserves the directory invariant. -/
theorem logFormData_inv {cfg : LoggerCfg} {fmt : String → String} {dir : Dir}
    {s : String} {rec : AcuityRecord}
    (hdir : DirInv dir) (hop : OpHyp fmt ⟨s, rec⟩) :
    DirInv (logFormData cfg fmt dir s rec).1 := by
  cases hx : extractFormData dir fmt s rec with
  | none =>
    unfold logFormData
    rw [hx]
    exact hdir
  | some fd =>
    have hfd_eq : fd = applyForms (baseFormData dir fmt s rec) rec.forms := by
      unfold extractFormData at hx
      by_cases hf : rec.forms.isEmpty = true
      · rw [if_pos hf] at hx
        cases hx
      · rw [if_neg hf] at hx
        exact ((Option.some.injEq _ _).mp hx).symm
    obtain ⟨hfdid, hfddt, hfdresc, hfdkp, hfdvp, hfd_idv, hfd_dtv, hfd_flv⟩ :=
      @extract_fd_facts dir fmt s rec hop
    rw [← hfd_eq] at hfdid hfddt hfdresc hfdkp hfdvp hfd_idv hfd_dtv hfd_flv
    rw [logFormData_some hx]
    intro name f' hget'
    by_cases hn : name = getFormCsvFilename cfg rec.appointment_type
    · rw [hn, alistUpsert_get_self] at hget'
      have hf' : f' = (writeFormCsv
          (alistGet? dir (getFormCsvFilename cfg rec.appointment_type))
          fd).1 := ((Option.some.injEq _ _).mp hget').symm
      rw [hf']
      apply writeFormCsv_file_inv
        (fun f hgf => hdir _ f hgf) hfdid hfddt hfdresc hfdkp hfdvp
      · rw [hfd_idv]
        exact hop.2.2.1
      · rw [hfd_flv]
        exact boolYesNo_cases _
      · intro f hgf
        cases hcheck : checkIfRescheduled dir rec.appointment_id
            (fmt rec.datetime) rec.canceled with
        | true =>
          left
          rw [hfd_flv, hcheck]
          rfl
        | false =>
          right
          intro hidne r hr hkeyr
          rw [hfd_dtv]
          rw [hfd_idv] at hidne
          unfold keyedBy at hkeyr
          rw [hfd_idv] at hkeyr
          exact check_false_file hgf
            (fname_ends_csv cfg rec.appointment_type) hidne hcheck r hr hkeyr
    · rw [alistUpsert_get_ne dir _ (fun h => hn h.symm)] at hget'
      exact hdir name f' hget'

/-- Any batch of well-formed operations preserves the directory
invariant. -/
theorem runLog_inv (cfg : LoggerCfg) (fmt : String → String) :
    ∀ (ops : List LogOp) (dir : Dir), DirInv dir →
    (∀ op ∈ ops, OpHyp fmt op) →
    DirInv (ops.foldl
      (fun d op => (logFormData cfg fmt d op.syncTs op.record).1) dir)
  | [], _, hd, _ => hd
  | op :: t, dir, hd, hops => by
    rw [List.foldl_cons]
    exact runLog_inv cfg fmt t _
      (logFormData_inv hd (hops op (List.mem_cons_self _ _)))
      (fun o ho => hops o (List.mem_cons_of_mem _ ho))

/-! ### The SDK writer under faults -/

/-- The SDK inferencer (sorts only by Export Timestamp). -/
def fixRescheduledFieldInFileSdk (f : CSVFile) : CSVFile × Bool :=
  if !(f.header.contains "Rescheduled") then (f, false)
  else if f.rows.isEmpty then (f, false)
  else
    let res := fixRescheduledRows sdkTsSortKey f.rows
    (⟨f.header, res.1⟩, res.2)

/-- The SDK signature applied to a CSV row. -/
def sdkRowSignature (row : Row) : String :=
  CSVSDK.createRecordSignature (row.map (fun p => (p.1, some p.2)))

/-- The SDK dedup sweep (keep first occurrence by the SDK signature). -/
def dedupeRowsAuxSdk (seen : List String) : List Row → List Row
  | [] => []
  | r :: t =>
    let s := sdkRowSignature r
    if seen.contains s then dedupeRowsAuxSdk seen t
    else r :: dedupeRowsAuxSdk (s :: seen) t

/-- CSVSDK._dedupe_csv_file. -/
def dedupeCsvFileSdk (f : CSVFile) : CSVFile :=
  ⟨f.header, dedupeRowsAuxSdk [] f.rows⟩

/-- The top-level field names _write_forms_to_csv adds for every form. -/
def sdkTopFields : List String :=
  ["Appointment ID", "Client Name", "Email", "Phone",
   "Appointment DateTime", "Appointment Type", "Canceled", "Rescheduled"]

/-- The union of field names over the batch (a Python set; rendered as the
collected list, distinct membership taken when sorting the header). -/
def sdkAllFields (forms : List AcuityRecord) : List String :=
  forms.foldl (fun acc rec =>
    rec.forms.foldl (fun acc form =>
      form.foldl (fun acc field =>
        if pyStrip field.name != "" then acc ++ [pyStrip field.name]
        else acc) acc) (acc ++ sdkTopFields)) []

/-- headers = Export Timestamp plus the sorted distinct field names. -/
def sdkHeaders (forms : List AcuityRecord) : List String :=
  "Export Timestamp" :: isortBy strLe (sdkAllFields forms).dedup

/-- One batch row before the reschedule flag update (lines 379-397). -/
def sdkRow (now : String) (fmt : String → String) (rec : AcuityRecord) : Row :=
  applyForms
    [("Export Timestamp", now),
     ("Appointment ID", rec.appointment_id),
     ("Client Name", rec.client_name),
     ("Email", rec.email),
     ("Phone", rec.phone),
     ("Appointment DateTime", fmt rec.datetime),
     ("Appointment Type", rec.appointment_type),
     ("Canceled", boolYesNo rec.canceled),
     ("Rescheduled", "No")] rec.forms

/-- The reschedule/status-change detection against the rows read from the
existing file (lines 405-419). -/
def sdkIsRescheduled (rows : List Row) (aptId dt : String) (c : Bool) : Bool :=
  let grp := rows.filter (fun r => alistGetD r "Appointment ID" "" == aptId)
  if aptId != "" && !grp.isEmpty then
    (!grp.any (fun r => alistGetD r "Appointment DateTime" "" == dt)) ||
    (!grp.any (fun r => alistGetD r "Canceled" "No" == boolYesNo c))
  else false

/-- The new or changed records of the batch (lines 371-421): per form,
build the row, skip it when its signature is already in the file, else set
its Rescheduled flag from the detection. -/
def sdkRecordsToAdd (existingRows : List Row) (now : String)
    (fmt : String → String) (forms : List AcuityRecord) : List Row :=
  forms.foldl (fun acc rec =>
    let row := sdkRow now fmt rec
    if (existingRows.map sdkRowSignature).contains (sdkRowSignature row) then
      acc
    else
      acc ++ [alistUpsert row "Rescheduled"
        (boolYesNo (sdkIsRescheduled existingRows rec.appointment_id
          (fmt rec.datetime) rec.canceled))]) []

/-- CSVSDK._write_forms_to_csv (src/acuity_airtable_sdk.py lines 315-437)
under faults.  The read of the existing file sits inside a try (except:
warn and continue with empty sets), and the inferencer and dedup sweep are
try-wrapped inside their own bodies — but the append write at lines
424-431 has NO enclosing try: its failure propagates to the caller, and
neither export_forms_grouped nor export_to_csv catches it.  When the file
already exists the code appends rows laid out by the freshly computed
header line without rewriting the stored header; the model stores the
appended rows keyed by those computed headers, which coincides with what a
later DictReader pass sees whenever the stored header equals the computed
one. -/
def writeFormsToCsvE (ft : Faults) (file : Option CSVFile)
    (forms : List AcuityRecord) (now : String) (fmt : String → String) :
    Except String (Option CSVFile) :=
  if forms.isEmpty then Except.ok file
  else
    let existingRows :=
      match file with
      | some f => tryOr (ioGuard ft.sdkRead f.rows) []
      | none => []
    let headers := sdkHeaders forms
    let records := sdkRecordsToAdd existingRows now fmt forms
    if records.isEmpty then Except.ok file
    else
      match ioGuard ft.appendWrite
          (match file with
           | some f => (⟨f.header,
               f.rows ++ records.map (storedRow headers)⟩ : CSVFile)
           | none => ⟨headers, records.map (storedRow headers)⟩) with
      | Except.error e => Except.error e
      | Except.ok f1 =>
        Except.ok (some (tryOr (ioGuard ft.dedupeIO
          (dedupeCsvFileSdk (tryOr (ioGuard ft.fixIO
            (fixRescheduledFieldInFileSdk f1).1) f1)))
          (tryOr (ioGuard ft.fixIO (fixRescheduledFieldInFileSdk f1).1) f1)))

/-- Claim C9 counterexample: a write failure at the SDK's unprotected
append (lines 424-431) escapes _write_forms_to_csv — the operation returns
an error instead of degrading, and no caller in the repository catches
it. -/
theorem c9_counterexample :
    writeFormsToCsvE
      ⟨false, false, false, true, false, false, false, false, false⟩
      none
      [⟨"7", "N", "E", "P", "T", false, "unknown", [[⟨"Q", "a"⟩]]⟩]
      "2025-01-01 00:00:00" id = Except.error "io error" := by
  rfl

/-- Claim C9 as amended: no exception escapes the CSVLogger record-logging
entry point — for every fault assignment, every input and every directory
state, _write_form_csv and log_form_data return normally, an unreadable
File being treated as headerless and a failed operation degrading to
leaving the File as it was.  (The SDK's _write_forms_to_csv does NOT enjoy
this: see the counterexample.) -/
theorem c9_amended (ft : Faults) (cfg : LoggerCfg) (fmt : String → String)
    (dir : Dir) (file : Option CSVFile) (syncTs : String) (fd : Row)
    (rec : AcuityRecord) :
    (∃ f', writeFormCsvE ft file fd = Except.ok f') ∧
    (∃ d, logFormDataE ft cfg fmt dir syncTs rec = Except.ok d) := by
  constructor
  · cases file with
    | none =>
      cases h : ioGuard ft.appendWrite
          (⟨mergedHeaders [] fd, [storedRow (mergedHeaders [] fd) fd]⟩ :
            CSVFile) with
      | error e => exact ⟨none, by simp only [writeFormCsvE, h]⟩
      | ok f1 =>
        exact ⟨some (dedupeCsvFileE ft (fixRescheduledFieldInFileE ft f1)),
          by simp only [writeFormCsvE, h]⟩
    | some f =>
      by_cases h : tryOr (ioGuard ft.dupRead
          (f.rows.any (fun r => rowSignature r == rowSignature fd))) false = true
      · exact ⟨some f, by simp only [writeFormCsvE]; rw [if_pos h]⟩
      · exact ⟨_, by simp only [writeFormCsvE]; rw [if_neg h]⟩
  · cases hx : extractFormDataE ft dir fmt syncTs rec with
    | none => exact ⟨dir, by simp only [logFormDataE, hx]⟩
    | some fd' =>
      cases hw : writeFormCsvE ft
          (alistGet? dir (getFormCsvFilename cfg rec.appointment_type)) fd' with
      | error e => exact ⟨dir, by simp only [logFormDataE, hx, hw]⟩
      | ok o =>
        cases o with
        | none => exact ⟨dir, by simp only [logFormDataE, hx, hw]⟩
        | some f' =>
          exact ⟨alistUpsert dir (getFormCsvFilename cfg rec.appointment_type) f',
            by simp only [logFormDataE, hx, hw]⟩

/-- Claim C2 counterexample: logging two Records with the same Business Key,
the same Temporal Key and the same Canceled state but different form answers
(so the signatures differ and the duplicate skip does not fire) leaves TWO
rows of that Business Key both carrying Rescheduled = No — the reschedule
check sees no datetime or status change, and the inference pass skips the
group because it has only one distinct datetime.  This refutes the "at most
one row may have Derived Flag = No" clause. -/
theorem c2_counterexample :
    ((alistGet? (runLog ⟨[], "fb"⟩ id
        [⟨"2025-01-01 00:00:00",
          ⟨"7", "N", "E", "P", "T", false, "unknown", [[⟨"Q", "a"⟩]]⟩⟩,
         ⟨"2025-01-01 00:00:01",
          ⟨"7", "N", "E", "P", "T", false, "unknown", [[⟨"Q", "b"⟩]]⟩⟩])
      "unknown.csv").map (fun f =>
        (f.rows.filter (keyedBy "7")).map
          (fun r => alistGetD r "Rescheduled" "No"))) = some ["No", "No"] := by
  decide

/-- Claim C2 as amended: after any sequence of full log_form_data
operations from an empty directory — each operation well-formed in the
sense of OpHyp: pipe-free scalar fields, form names and answers, a
whitespace-trimmed Appointment ID, and form field names that do not collide
with the base columns — every row of a non-empty Business Key group whose
Appointment DateTime differs from the group's first (earliest-written) row
carries Rescheduled = Yes.  (Appends always go to the end of the file, the
rewrite, inference and dedup passes preserve the order of survivors, and
the dedup sweep keeps the first occurrence, so a group's first row in file
order is its earliest-written row.)  The original claim's additional
"at most one row may have Derived Flag = No" clause is dropped: the
counterexample shows it fails for same-datetime re-submissions. -/
theorem c2_amended (cfg : LoggerCfg) (fmt : String → String) (ops : List LogOp)
    (hops : ∀ op ∈ ops, OpHyp fmt op) :
    ∀ fname f, alistGet? (runLog cfg fmt ops) fname = some f →
    ∀ i, i ≠ "" →
    ∀ hd, (f.rows.filter (keyedBy i)).head? = some hd →
    ∀ r ∈ f.rows, keyedBy i r = true →
    alistGetD r "Appointment DateTime" "" ≠
      alistGetD hd "Appointment DateTime" "" →
    alistGetD r "Rescheduled" "No" = "Yes" := by
  intro fname f hget i hi hd hhd r hr hkey hne
  have hinv : DirInv (runLog cfg fmt ops) := by
    unfold runLog
    exact runLog_inv cfg fmt ops []
      (fun name f0 h0 => Option.noConfusion h0) hops
  obtain ⟨_, _, _, _, hflagYN, hfc⟩ := hinv fname f hget
  rcases hflagYN r hr with hY | hN
  · exact hY
  · exact absurd (hfc i hi hd hhd r hr hkey hN) hne

theorem c2_amended_witness :
    (∀ op ∈ ([⟨"2025-01-01 00:00:00",
        ⟨"7", "N", "E", "P", "A", false, "unknown", [[⟨"Q", "a"⟩]]⟩⟩,
      ⟨"2025-01-01 00:00:01",
        ⟨"7", "N", "E", "P", "B", false, "unknown", [[⟨"Q", "a"⟩]]⟩⟩] :
        List LogOp), OpHyp id op) ∧
    (∀ fname f, alistGet? (runLog ⟨[], "fb"⟩ id
        [⟨"2025-01-01 00:00:00",
          ⟨"7", "N", "E", "P", "A", false, "unknown", [[⟨"Q", "a"⟩]]⟩⟩,
         ⟨"2025-01-01 00:00:01",
          ⟨"7", "N", "E", "P", "B", false, "unknown", [[⟨"Q", "a"⟩]]⟩⟩])
        fname = some f →
      ∀ i, i ≠ "" →
      ∀ hd, (f.rows.filter (keyedBy i)).head? = some hd →
      ∀ r ∈ f.rows, keyedBy i r = true →
      alistGetD r "Appointment DateTime" "" ≠
        alistGetD hd "Appointment DateTime" "" →
      alistGetD r "Rescheduled" "No" = "Yes") :=
  ⟨by decide, c2_amended ⟨[], "fb"⟩ id _ (by decide)⟩

end AirtableCsv
